import Mathlib

/-!
Verification of the go-datarepository key codec, memory backend, Redis
backend wrappers, and factory, as a shallow embedding in Lean 4.

Modelling conventions, used throughout:
* Go strings are Lean `String`; byte length is modelled as character
  length (all key material the repository accepts is ASCII, where the
  two coincide).
* The key separator is modelled as a single character; the
  repository default is the one-character string ":".
* Go `error` values are the inductive `GoErr`: the package sentinel
  errors are constructors, `fmt.Errorf` with a `%w` verb is `wrapped`,
  and any other ad-hoc error is `plain`.  `errors.Is` is `goErrorIs`.
* Fallible Go functions return `Except GoErr _`; functions that mutate
  a repository return the new state explicitly; `time.Now()` is an
  explicit `now : Nat` argument and `time.Duration`/instants are `Nat`
  (a `time.Until` result, which can be negative, is `Int`).
* Names ending in the letters p-r-e abbreviate Prefix (for example
  `entityPre` models the Go field EntityPrefix, `validateEntityPre`
  models validateEntityPrefix).
-/

deriving instance DecidableEq for Except

namespace DataRepo

/-- Models the Go error taxonomy of the package: the sentinel errors of
datarepository.go and datarepository.redis.go are constructors, a
`fmt.Errorf("%w: ...", cause)` is `wrapped cause msg`, and an error
created without wrapping is `plain msg`. -/
inductive GoErr where
  | errNotFound
  | errAlreadyExists
  | errInvalidIdentifier
  | errInvalidInput
  | errOperationFailed
  | errNotSupported
  | errEmptyKeyPart
  | errInvalidKeyFormat
  | errInvalidKeyLength
  | errInvalidKeyPre
  | errInvalidKeySuffix
  | errInvalidKeyChars
  | errInvalidEntityPre
  | errUnsupportedIdentifier
  | errInvalidKeyPatternChars
  | wrapped (cause : GoErr) (msg : String)
  | plain (msg : String)
deriving DecidableEq, Repr

/-- Models Go `errors.Is(e, target)`: identity, or identity of some
error in the wrap chain. -/
def goErrorIs : GoErr → GoErr → Bool
  | e@(.wrapped cause _), target => e == target || goErrorIs cause target
  | e, target => e == target

/-- Models `IsNotFoundError` of datarepository.go. -/
def IsNotFoundError (e : GoErr) : Bool := goErrorIs e .errNotFound

/-- Models `IsAlreadyExistsError` of datarepository.go. -/
def IsAlreadyExistsError (e : GoErr) : Bool := goErrorIs e .errAlreadyExists

/-- Models `IsInvalidIdentifierError` of datarepository.go. -/
def IsInvalidIdentifierError (e : GoErr) : Bool := goErrorIs e .errInvalidIdentifier

/-- Models `IsInvalidInputError` of datarepository.go. -/
def IsInvalidInputError (e : GoErr) : Bool := goErrorIs e .errInvalidInput

/-- Models `IsOperationFailedError` of datarepository.go. -/
def IsOperationFailedError (e : GoErr) : Bool := goErrorIs e .errOperationFailed

/-! String helpers modelling the Go standard library functions the
repository uses.  They operate on the underlying character lists so
that every definition is structural and evaluates inside the kernel. -/

/-- Models `strings.Split(s, sep)` for a one-character separator, on
character lists: splitting keeps empty segments, and splitting the
empty string yields one empty segment. -/
def splitChars (sep : Char) : List Char → List (List Char)
  | [] => [[]]
  | c :: cs =>
    if c == sep then [] :: splitChars sep cs
    else
      match splitChars sep cs with
      | [] => [[c]]
      | l :: ls => (c :: l) :: ls

/-- Models `strings.Split(s, sep)` for a one-character separator. -/
def goSplit (s : String) (sep : Char) : List String :=
  (splitChars sep s.data).map String.mk

/-- Models `strings.Join(parts, sep)` for a one-character separator. -/
def goJoin : List String → Char → String
  | [], _ => ""
  | [s], _ => s
  | s :: t :: rest, sep => s ++ String.mk [sep] ++ goJoin (t :: rest) sep

/-- Models `strings.HasPrefix(s, pre)`. -/
def goHasPre (s pre : String) : Bool := pre.data.isPrefixOf s.data

/-- Models the constant MinKeyLength of datarepository.redis.go. -/
def MinKeyLength : Nat := 5

/-- Models the constant MaxKeyLength of datarepository.redis.go. -/
def MaxKeyLength : Nat := 256

/-- Character class of the regex in validKeyRegex of
datarepository.redis.go: a-z, A-Z, 0-9, underscore, colon, dot,
hyphen. -/
def isValidKeyChar (c : Char) : Bool :=
  c.isAlpha || c.isDigit || c == '_' || c == ':' || c == '.' || c == '-'

/-- Character class of the regex in validKeyPatternRegex of
datarepository.redis.go: the exact-key class plus question mark and
star. -/
def isValidKeyPatternChar (c : Char) : Bool :=
  isValidKeyChar c || c == '?' || c == '*'

/-- Models validKeyRegex.MatchString: the key is non-empty and every
character is in the exact-key class (the regex is anchored on both
sides with a plus quantifier). -/
def validKeyMatch (s : String) : Bool :=
  !s.data.isEmpty && s.data.all isValidKeyChar

/-- Models validKeyPatternRegex.MatchString. -/
def validKeyPatternMatch (s : String) : Bool :=
  !s.data.isEmpty && s.data.all isValidKeyPatternChar

/-- Tail character class of entityPrefixRegex: letters, digits,
underscore, hyphen. -/
def isEntityPreTailChar (c : Char) : Bool :=
  c.isAlpha || c.isDigit || c == '_' || c == '-'

/-- Models entityPrefixRegex.MatchString of datarepository.redis.go:
a letter followed by letters, digits, underscores or hyphens. -/
def entityPreMatch (s : String) : Bool :=
  match s.data with
  | [] => false
  | c :: cs => c.isAlpha && cs.all isEntityPreTailChar

/-- Models RedisRepository.validateKey of datarepository.redis.go
(lines 169 to 196), parameterised by the repository namespace string
`pre` and separator `sep` (defaults app and the colon). -/
def validateKey (pre : String) (sep : Char) (key : String) (allowPattern : Bool) :
    Except GoErr Unit :=
  if key.length < MinKeyLength || key.length > MaxKeyLength then
    .error (.wrapped .errInvalidKeyLength
      "key length must be between 5 and 256 characters")
  else if allowPattern && !validKeyPatternMatch key then
    .error (.wrapped .errInvalidKeyPatternChars
      "key-patterns must contain only alphanumeric characters, underscores, colons, dots, and hyphens and stars")
  else if !allowPattern && !validKeyMatch key then
    .error (.wrapped .errInvalidKeyChars
      "key must contain only alphanumeric characters, underscores, colons, dots, and hyphens")
  else if !goHasPre key (pre.push sep) then
    .error (.wrapped .errInvalidKeyPre ("key must start with " ++ pre.push sep))
  else
    let parts := goSplit key sep
    if parts.length < 2 || parts.getD 1 "" == "" then
      .error (.wrapped .errInvalidKeySuffix
        "key must have at least one non-empty part after the prefix")
    else if parts.any (fun part => part == "") then
      .error .errEmptyKeyPart
    else .ok ()

/-- Models RedisRepository.validateEntityPrefix of
datarepository.redis.go: the bare sentinel on a regex mismatch. -/
def validateEntityPre (entityPre : String) : Except GoErr Unit :=
  if entityPreMatch entityPre then .ok () else .error .errInvalidEntityPre

/-- Models RedisRepository.createKey: join the namespace and the parts
with the separator, then validate in exact mode. -/
def createKey (pre : String) (sep : Char) (parts : List String) : Except GoErr String :=
  let key := goJoin (pre :: parts) sep
  match validateKey pre sep key false with
  | .error e => .error e
  | .ok _ => .ok key

/-- Models RedisRepository.createKeyPattern: join, then validate in
pattern mode. -/
def createKeyPattern (pre : String) (sep : Char) (parts : List String) :
    Except GoErr String :=
  let key := goJoin (pre :: parts) sep
  match validateKey pre sep key true with
  | .error e => .error e
  | .ok _ => .ok key

/-- Models RedisRepository.parseKey: validate in exact mode, then drop
the namespace segment. -/
def parseKey (pre : String) (sep : Char) (key : String) : Except GoErr (List String) :=
  match validateKey pre sep key false with
  | .error e => .error e
  | .ok _ => .ok ((goSplit key sep).drop 1)

/-- Models the EntityIdentifier implementations of the package:
RedisIdentifier carries the Go fields EntityPrefix and ID,
SimpleIdentifier and MemoryIdentifier carry one string. -/
inductive EntityIdentifier where
  | RedisIdentifier (entityPre id : String)
  | SimpleIdentifier (s : String)
  | MemoryIdentifier (s : String)
deriving DecidableEq, Repr

/-- Models the String() projection of each identifier type; the
RedisIdentifier one joins the two fields with DefaultKeySeparator. -/
def EntityIdentifier.idString : EntityIdentifier → String
  | .RedisIdentifier entityPre id => entityPre ++ ":" ++ id
  | .SimpleIdentifier s => s
  | .MemoryIdentifier s => s

/-- Models RedisRepository.identifierToKey (datarepository.redis.go
lines 232 to 253): a RedisIdentifier goes through the entity-prefix
gate and then key assembly, a SimpleIdentifier is a single part, any
other identifier type is unsupported. -/
def identifierToKey (pre : String) (sep : Char) (identifier : EntityIdentifier)
    (allowPattern : Bool) : Except GoErr String :=
  match identifier with
  | .RedisIdentifier entityPre id =>
    match validateEntityPre entityPre with
    | .error e => .error e
    | .ok _ =>
      if allowPattern then createKeyPattern pre sep [entityPre, id]
      else createKey pre sep [entityPre, id]
  | .SimpleIdentifier s => createKey pre sep [s]
  | .MemoryIdentifier _ => .error .errUnsupportedIdentifier

/-- Models RedisRepository.keyToIdentifier (datarepository.redis.go
lines 255 to 264): parse the key, rebuild a RedisIdentifier when at
least two segments remain, else a SimpleIdentifier. -/
def keyToIdentifier (pre : String) (sep : Char) (key : String) :
    Except GoErr EntityIdentifier :=
  match parseKey pre sep key with
  | .error e => .error e
  | .ok parts =>
    if parts.length ≥ 2 then
      .ok (.RedisIdentifier (parts.getD 0 "") (parts.getD 1 ""))
    else
      .ok (.SimpleIdentifier (goJoin parts sep))

/-! Association-list model of the Go maps of the memory backend: a Go
map write `m[k] = v` is `insertKV`, `delete(m, k)` is `eraseKV`, a read
`m[k]` is `lookupKV`. -/

/-- Lookup in an association list, the Go map read. -/
def lookupKV {α : Type} : List (String × α) → String → Option α
  | [], _ => none
  | (k, v) :: rest, key => if k == key then some v else lookupKV rest key

/-- Removal from an association list, the Go map delete. -/
def eraseKV {α : Type} (l : List (String × α)) (key : String) : List (String × α) :=
  l.filter (fun kv => kv.1 ≠ key)

/-- Insertion into an association list, the Go map write (the key is
stored once). -/
def insertKV {α : Type} (l : List (String × α)) (key : String) (v : α) :
    List (String × α) :=
  (key, v) :: eraseKV l key

/-- Models the Go `interface{}` values the memory backend stores: an
int64 counter, a string, or any other value carried together with its
`fmt.Sprintf("%v", value)` rendering. -/
inductive GoValue where
  | intV (n : Int)
  | strV (s : String)
  | raw (repr : String)
deriving DecidableEq, Repr

/-- Models `fmt.Sprintf("%v", value)` for the modelled values. -/
def goFormat : GoValue → String
  | .intV n => toString n
  | .strV s => s
  | .raw r => r

/-- Substring occurrence on character lists: the first list occurs
contiguously in the second. -/
def containsChars (sub : List Char) : List Char → Bool
  | [] => sub.isEmpty
  | c :: cs => sub.isPrefixOf (c :: cs) || containsChars sub cs

/-- Models `strings.Contains(s, sub)`. -/
def goContains (s sub : String) : Bool :=
  containsChars sub.data s.data

/-- Models the state of MemoryRepository (datarepository.memory.go):
the data map, the lock-expiry map and the key-expiry map.  Instants
are `Nat` clock readings; the pub/sub channel registry is not part of
any claim and is omitted. -/
structure MemState where
  data : List (String × GoValue)
  locks : List (String × Nat)
  expiries : List (String × Nat)
deriving DecidableEq, Repr

/-- The state of a freshly constructed MemoryRepository. -/
def MemState.empty : MemState := ⟨[], [], []⟩

/-- Models MemoryRepository.Create. -/
def memCreate (s : MemState) (key : String) (v : GoValue) :
    Except GoErr Unit × MemState :=
  match lookupKV s.data key with
  | some _ => (.error .errAlreadyExists, s)
  | none => (.ok (), { s with data := insertKV s.data key v })

/-- Models MemoryRepository.Read (datarepository.memory.go lines 72 to
90): an expired entry is lazily evicted and reported NotFound, else the
data map decides. -/
def memRead (s : MemState) (now : Nat) (key : String) :
    Except GoErr GoValue × MemState :=
  match lookupKV s.expiries key with
  | some expiry =>
    if now > expiry then
      (.error .errNotFound,
        { s with data := eraseKV s.data key, expiries := eraseKV s.expiries key })
    else
      match lookupKV s.data key with
      | some v => (.ok v, s)
      | none => (.error .errNotFound, s)
  | none =>
    match lookupKV s.data key with
    | some v => (.ok v, s)
    | none => (.error .errNotFound, s)

/-- Models MemoryRepository.SetExpiration (lines 261 to 275): NotFound
when no entity is stored, else record the absolute expiry instant. -/
def memSetExpiration (s : MemState) (now : Nat) (key : String) (d : Nat) :
    Except GoErr Unit × MemState :=
  match lookupKV s.data key with
  | none => (.error .errNotFound, s)
  | some _ => (.ok (), { s with expiries := insertKV s.expiries key (now + d) })

/-- Models MemoryRepository.GetExpiration (lines 277 to 286): when an
expiry record exists the remaining duration `time.Until(expiry)` is
returned, whether or not it is already negative; only a missing record
is NotFound. -/
def memGetExpiration (s : MemState) (now : Nat) (key : String) :
    Except GoErr Int :=
  match lookupKV s.expiries key with
  | some expiry => .ok ((expiry : Int) - (now : Int))
  | none => .error .errNotFound

/-- Models MemoryRepository.AcquireLock (lines 181 to 191): a present,
unexpired lock record refuses; otherwise the record is written with
expiry `now + ttl` and the call succeeds. -/
def memAcquireLock (s : MemState) (now : Nat) (key : String) (ttl : Nat) :
    Bool × MemState :=
  match lookupKV s.locks key with
  | some lockTime =>
    if now < lockTime then (false, s)
    else (true, { s with locks := insertKV s.locks key (now + ttl) })
  | none => (true, { s with locks := insertKV s.locks key (now + ttl) })

/-- Models MemoryRepository.ReleaseLock (lines 193 to 203). -/
def memReleaseLock (s : MemState) (key : String) :
    Except GoErr Unit × MemState :=
  match lookupKV s.locks key with
  | none => (.error .errNotFound, s)
  | some _ => (.ok (), { s with locks := eraseKV s.locks key })

/-- Two-complement wrap-around of Go int64 arithmetic: the value
reduced into the interval from minus two to the sixty-third up to one
below two to the sixty-third. -/
def wrapInt64 (n : Int) : Int := (n + 2 ^ 63) % 2 ^ 64 - 2 ^ 63

/-- Models MemoryRepository.AtomicIncrement (lines 288 to 307): absent
creates the int64 counter at one, an int64 counter is incremented by
the Go v++ -- which wraps at the int64 maximum -- and anything else is
ErrInvalidInput with the state untouched. -/
def memAtomicIncrement (s : MemState) (key : String) :
    Except GoErr Int × MemState :=
  match lookupKV s.data key with
  | none => (.ok 1, { s with data := insertKV s.data key (.intV 1) })
  | some (.intV n) =>
    (.ok (wrapInt64 (n + 1)),
      { s with data := insertKV s.data key (.intV (wrapInt64 (n + 1))) })
  | some _ => (.error .errInvalidInput, s)

/-- N sequential MemoryRepository.AtomicIncrement calls on the same
key, collecting the results in order. -/
def memIncrN (s : MemState) (key : String) : Nat → List (Except GoErr Int) × MemState
  | 0 => ([], s)
  | n + 1 =>
    let p := memAtomicIncrement s key
    let q := memIncrN p.2 key n
    (p.1 :: q.1, q.2)

/-! The memory backend Search: a containment scan over the formatted
values, a sort of the matching canonical keys, then pagination.  The Go
`sort.Slice` call is modelled by insertion sort with the same boolean
comparator; on the duplicate-free keys of a Go map both produce the
unique list ordered by the comparator. -/

/-- Lexicographic character-code comparison of two character lists,
modelling the Go string order (byte order; identical on ASCII). -/
def strLtChars : List Char → List Char → Bool
  | [], [] => false
  | [], _ :: _ => true
  | _ :: _, [] => false
  | a :: as, b :: bs => decide (a.toNat < b.toNat) || (a == b && strLtChars as bs)

/-- Models the Go `<` on strings. -/
def goStrLt (a b : String) : Bool := strLtChars a.data b.data

/-- The boolean comparator of MemoryRepository.Search: the plain string
order, with the arguments swapped when sortDir is DESC.  `goSortLe dir
a b` holds when `a` need not come after `b`. -/
def goSortLe (sortDir : String) (a b : String) : Bool :=
  if sortDir == "DESC" then !goStrLt a b else !goStrLt b a

/-- Ordered insertion for `sortLe`. -/
def insertLe {α : Type} (le : α → α → Bool) (a : α) : List α → List α
  | [] => [a]
  | b :: l => if le a b then a :: b :: l else b :: insertLe le a l

/-- Insertion sort by a boolean comparator, the model of the Go
`sort.Slice` call. -/
def sortLe {α : Type} (le : α → α → Bool) : List α → List α
  | [] => []
  | a :: l => insertLe le a (sortLe le l)

/-- Models MemoryRepository.Search (datarepository.memory.go lines 146
to 179): reject a negative offset or limit, filter the data map by
substring containment of the query in the formatted value, sort the
canonical keys (the sortBy argument is never consulted), and slice
result[offset:end] where end is offset plus limit computed in int64
arithmetic -- so it wraps -- clamped down to the match count.  When the
wrapped end falls below offset the Go slice expression panics; the
model returns `none` for that panic, `some` for every returned
value. -/
def memSearch (s : MemState) (query : String) (offset limit : Int)
    (sortBy sortDir : String) : Option (Except GoErr (List String)) :=
  if offset < 0 || limit < 0 then
    some (.error (.wrapped .errInvalidInput "invalid offset or limit"))
  else
    let found :=
      (s.data.filter (fun kv => goContains (goFormat kv.2) query)).map (fun kv => kv.1)
    let sorted := sortLe (goSortLe sortDir) found
    if offset ≥ (sorted.length : Int) then some (.ok [])
    else
      let rawEnd := wrapInt64 (offset + limit)
      let last := if rawEnd > (sorted.length : Int) then (sorted.length : Int) else rawEnd
      if offset ≤ last then
        some (.ok ((sorted.take last.toNat).drop offset.toNat))
      else
        none

/-! The memory backend List: the glob is rewritten with star replaced
by dot-star and compiled as an (unanchored) regular expression.  The
regexp engine is modelled for the fragment the rewritten patterns use:
literal characters, the dot wildcard, and the postfix star, plus and
question-mark quantifiers.  Compilation failure of patterns outside
this fragment is not modelled. -/

/-- One-character match of a regex atom: the dot matches anything, any
other character only itself. -/
def singleMatch (p c : Char) : Bool := p == '.' || p == c

/-- Anchored-at-the-start regex match, fuel-recursive so that it
evaluates structurally; `matchHere` supplies sufficient fuel.  Matching
a pattern consumes a prefix of the text. -/
def matchHereF : Nat → List Char → List Char → Bool
  | 0, _, _ => false
  | fuel + 1, pat, t =>
    match pat, t with
    | [], _ => true
    | p :: '*' :: ps, t =>
      matchHereF fuel ps t ||
      (match t with
       | [] => false
       | c :: ts => singleMatch p c && matchHereF fuel (p :: '*' :: ps) ts)
    | p :: '+' :: ps, t =>
      (match t with
       | [] => false
       | c :: ts => singleMatch p c && matchHereF fuel (p :: '*' :: ps) ts)
    | p :: '?' :: ps, t =>
      matchHereF fuel ps t ||
      (match t with
       | [] => false
       | c :: ts => singleMatch p c && matchHereF fuel ps ts)
    | p :: ps, t =>
      (match t with
       | [] => false
       | c :: ts => singleMatch p c && matchHereF fuel ps ts)

/-- Anchored-at-the-start regex match.  Every recursive step of
`matchHereF` shortens the pattern or shortens the text keeping the
pattern length, so this fuel is sufficient. -/
def matchHere (pat t : List Char) : Bool :=
  matchHereF (pat.length + t.length + 1) pat t

/-- Unanchored regex match: try the anchored match at every suffix of
the text, modelling regexp MatchString of an unanchored pattern. -/
def matchFrom (pat : List Char) : List Char → Bool
  | [] => matchHere pat []
  | c :: ts => matchHere pat (c :: ts) || matchFrom pat ts

/-- Models `regexp.MatchString` for the modelled fragment: the pattern
matches somewhere inside the text. -/
def goRegexMatch (pattern text : String) : Bool :=
  matchFrom pattern.data text.data

/-- Replacement loop for `goReplaceAll`, fuel-recursive on the text
length (the pattern is non-empty, so every step consumes text). -/
def replaceAllF (pat rep : List Char) : Nat → List Char → List Char
  | 0, l => l
  | _ + 1, [] => []
  | fuel + 1, c :: cs =>
    if pat.isPrefixOf (c :: cs) then
      rep ++ replaceAllF pat rep fuel (cs.drop (pat.length - 1))
    else
      c :: replaceAllF pat rep fuel cs

/-- Models `strings.ReplaceAll(s, pat, rep)` for a non-empty pattern:
left to right, non-overlapping, the replacement is not rescanned. -/
def goReplaceAll (s pat rep : String) : String :=
  if pat.data.isEmpty then s
  else String.mk (replaceAllF pat.data rep.data (s.data.length + 1) s.data)

/-- A quantifier metacharacter of the modelled regex fragment. -/
def isQuant (c : Char) : Bool := c == '*' || c == '+' || c == '?'

/-- A character the regex model interprets exactly as Go regexp does:
everything except the metacharacters the model does not implement
(alternation, classes, groups, anchors, escapes, braces). -/
def isModelledRegexChar (c : Char) : Bool :=
  !(c == '|' || c == '[' || c == ']' || c == '(' || c == ')'
    || c == '^' || c == '$' || c == '\\'
    || c == Char.ofNat 123 || c == Char.ofNat 125)

/-- Quantifiers appear only after a character they can repeat and never
stacked (the flag says whether a quantifier may appear next). -/
def quantOkAux : Bool → List Char → Bool
  | _, [] => true
  | allowQ, c :: cs =>
    if isQuant c then allowQ && quantOkAux false cs
    else quantOkAux true cs

/-- Outcome of the modelled regexp compilation. -/
inductive CompileOutcome where
  | ok
  | fail
  | unmodelled
deriving DecidableEq, Repr

/-- Models regexp.Compile on the fragment the repository rewrite
produces.  A pattern of literals and dots with well-placed star, plus
and question-mark quantifiers compiles, and on it `goRegexMatch` agrees
with Go.  A pattern starting with a repetition operator is rejected by
Go (missing argument to repetition operator) and is modelled as the
failure the List code wraps in ErrInvalidInput.  Any other pattern
(alternation, classes, groups, anchors, escapes, stacked quantifiers)
leaves the modelled fragment: Go may compile it with semantics this
model does not implement, so no behavior is asserted there. -/
def regexCompileModel (p : List Char) : CompileOutcome :=
  if p.all isModelledRegexChar && quantOkAux false p then .ok
  else
    match p with
    | c :: _ => if isQuant c then .fail else .unmodelled
    | [] => .unmodelled

/-- Models MemoryRepository.List (datarepository.memory.go lines 125 to
144): rewrite the pattern glob star to dot-star and compile it; on a
compile failure return the wrapped ErrInvalidInput of the source, else
keep every stored key the unanchored regex matches, with its value.
`none` marks a pattern outside the modelled regexp fragment. -/
def memList (s : MemState) (pattern : String) :
    Option (Except GoErr (List String × List GoValue)) :=
  let regex := goReplaceAll pattern "*" ".*"
  match regexCompileModel regex.data with
  | .ok =>
    let hits := s.data.filter (fun kv => goRegexMatch regex kv.1)
    some (.ok (hits.map (fun kv => kv.1), hits.map (fun kv => kv.2)))
  | .fail => some (.error (.wrapped .errInvalidInput "invalid pattern"))
  | .unmodelled => none

/-! The Redis backend.  The remote server and the client library are
external collaborators: operations that consult them take the backend
reply as an explicit argument, so a theorem about them quantifies over
every possible backend response.  The repository-side computation
(validation, key assembly, reply parsing, error wrapping) is
transcribed from datarepository.redis.go. -/

/-- One element of a Redis protocol reply array. -/
inductive RedisVal where
  | int (n : Int)
  | str (s : String)
  | other
deriving DecidableEq, Repr

/-- The key-collecting loop of RedisRepository.Search: the reply array
after the total carries key, document, key, document, ...; a non-string
entry, an invalid key or an undecodable key is skipped. -/
def searchCollect (pre : String) (sep : Char) : List RedisVal → List EntityIdentifier
  | [] => []
  | [k] => searchCollectOne pre sep k []
  | k :: _ :: rest => searchCollectOne pre sep k (searchCollect pre sep rest)
where
  /-- Handle one key entry of the reply, prepending it when valid. -/
  searchCollectOne (pre : String) (sep : Char) (k : RedisVal)
      (tail : List EntityIdentifier) : List EntityIdentifier :=
    match k with
    | .str key =>
      match validateKey pre sep key false with
      | .error _ => tail
      | .ok _ =>
        match keyToIdentifier pre sep key with
        | .error _ => tail
        | .ok ident => ident :: tail
    | _ => tail

/-- Models RedisRepository.Search (datarepository.redis.go lines 394 to
436).  The function dispatches FT.SEARCH with LIMIT offset limit to the
backend unconditionally -- there is no local check of offset or limit --
and `reply` is the backend response to that command: an error, or the
reply array.  A backend error surfaces wrapped in ErrOperationFailed. -/
def redisSearch (pre : String) (sep : Char) (query : String) (offset limit : Int)
    (sortBy sortDir : String) (reply : Except GoErr (List RedisVal)) :
    Except GoErr (List EntityIdentifier) :=
  match reply with
  | .error _ => .error (.wrapped .errOperationFailed "FT.SEARCH failed")
  | .ok array =>
    match array with
    | [] => .error (.plain "unexpected search result format")
    | first :: rest =>
      match first with
      | .int total =>
        if total == 0 then .ok []
        else .ok (searchCollect pre sep rest)
      | _ => .error (.plain "unexpected total results format")

/-- Models RedisRepository.AtomicIncrement (datarepository.redis.go
lines 519 to 525): encode the key, then issue INCR; `reply` is the
client response to INCR and is returned unchanged -- the repository
never reclassifies it. -/
def redisAtomicIncrement (pre : String) (sep : Char) (identifier : EntityIdentifier)
    (reply : Except GoErr Int) : Except GoErr Int :=
  match identifierToKey pre sep identifier false with
  | .error _ => .error (.wrapped .errInvalidIdentifier "identifier encoding failed")
  | .ok _ => reply

/-- Modelled from the spec: the Redis server keyspace behavior of the
SET-if-absent-with-TTL command (client.SetNX) that AcquireLock issues;
the server itself is not part of this repository source.  Per the
lock-record data model of the spec, the store maps lock keys to
absolute expiry instants, a record whose TTL has elapsed counts as
absent, and a successful conditional set writes expiry now plus ttl. -/
def redisSetNX (store : List (String × Nat)) (now : Nat) (key : String) (ttl : Nat) :
    Bool × List (String × Nat) :=
  match lookupKV store key with
  | some expiry =>
    if now < expiry then (false, store)
    else (true, insertKV store key (now + ttl))
  | none => (true, insertKV store key (now + ttl))

/-- Modelled from the spec: the Redis server DEL command used by
ReleaseLock, returning how many of the named keys existed (a record
whose TTL has elapsed counts as absent) and the store without them. -/
def redisDel (store : List (String × Nat)) (now : Nat) (key : String) :
    Nat × List (String × Nat) :=
  match lookupKV store key with
  | some expiry =>
    if now < expiry then (1, eraseKV store key)
    else (0, eraseKV store key)
  | none => (0, store)

/-- The lock key derived in RedisRepository.AcquireLock and
ReleaseLock: the entity key, the separator, and the constant lock
part. -/
def lockKeyOf (sep : Char) (key : String) : String :=
  key ++ String.mk [sep] ++ "lock"

/-- Models RedisRepository.AcquireLock (datarepository.redis.go lines
438 to 449) over the modelled server store: encode the key, then SetNX
on the derived lock key. -/
def redisAcquireLock (pre : String) (sep : Char) (store : List (String × Nat))
    (now : Nat) (identifier : EntityIdentifier) (ttl : Nat) :
    Except GoErr Bool × List (String × Nat) :=
  match identifierToKey pre sep identifier false with
  | .error _ => (.error (.wrapped .errInvalidIdentifier "identifier encoding failed"), store)
  | .ok key =>
    let p := redisSetNX store now (lockKeyOf sep key) ttl
    (.ok p.1, p.2)

/-- Models RedisRepository.ReleaseLock (datarepository.redis.go lines
451 to 466) over the modelled server store: DEL the lock key, NotFound
when nothing was removed. -/
def redisReleaseLock (pre : String) (sep : Char) (store : List (String × Nat))
    (now : Nat) (identifier : EntityIdentifier) :
    Except GoErr Unit × List (String × Nat) :=
  match identifierToKey pre sep identifier false with
  | .error _ => (.error (.wrapped .errInvalidIdentifier "identifier encoding failed"), store)
  | .ok key =>
    if (redisDel store now (lockKeyOf sep key)).1 == 0 then
      (.error .errNotFound, (redisDel store now (lockKeyOf sep key)).2)
    else
      (.ok (), (redisDel store now (lockKeyOf sep key)).2)

/-! The registry and factory of datarepository.factory.go, with the
configuration types of both backends.  Client construction (the
redis.NewClient calls) cannot fail locally and is opaque: a successful
construction is summarised by a repository descriptor. -/

/-- Models strconv.Atoi on the modelled strings: optional sign, then
decimal digits. -/
def goAtoi (s : String) : Option Int :=
  match s.data with
  | '-' :: ds => (digitsVal ds).map (fun n => -(n : Int))
  | '+' :: ds => (digitsVal ds).map (fun n => (n : Int))
  | ds => (digitsVal ds).map (fun n => (n : Int))
where
  /-- Decimal value of a non-empty digit list. -/
  digitsVal (ds : List Char) : Option Nat :=
    if ds.isEmpty then none
    else if ds.all Char.isDigit then
      some (ds.foldl (fun acc c => acc * 10 + (c.toNat - 48)) 0)
    else none

/-- Models the Config values passed to the factory: the two concrete
configuration types of the package, and any other Config
implementation. -/
inductive ConfigV where
  | RedisConfig (connectionString keyPre keySep : String)
  | MemoryConfig
  | OtherConfig
deriving DecidableEq, Repr

/-- Models the redisServerInfo struct parsed from a connection
string. -/
structure RedisServerInfo where
  mode : String
  name : String
  masterName : String
  sentinelUsername : String
  sentinelPassword : String
  username : String
  password : String
  db : Int
  addrs : List String
deriving DecidableEq, Repr

/-- Models parseRedisServerInfoFromConfigString (datarepository.redis.go
lines 66 to 91): split on semicolons, require at least nine fields,
default the db index to zero when unparsable, split the address list on
commas. -/
def parseRedisServerInfoFromConfigString (cs : String) : Except GoErr RedisServerInfo :=
  let baseinfo := goSplit cs ';'
  if baseinfo.length < 9 then
    .error (.wrapped .errInvalidInput "invalid connection string format")
  else
    .ok
      { mode := baseinfo.getD 0 ""
        name := baseinfo.getD 1 ""
        masterName := baseinfo.getD 2 ""
        sentinelUsername := baseinfo.getD 3 ""
        sentinelPassword := baseinfo.getD 4 ""
        username := baseinfo.getD 5 ""
        password := baseinfo.getD 6 ""
        db := match goAtoi (baseinfo.getD 7 "") with
          | none => 0
          | some d => d
        addrs := goSplit (baseinfo.getD 8 "") ',' }

/-- The outcome of a successful factory construction: which backend was
built, and for Redis the effective namespace, separator and server
info. -/
inductive RepoDesc where
  | redisRepo (keyPre keySep : String) (info : RedisServerInfo)
  | memRepo
deriving DecidableEq, Repr

/-- Models NewRedisRepository (datarepository.redis.go lines 115 to
167): reject a non-RedisConfig value with a wrapped ErrInvalidInput,
default the namespace and separator, parse the connection string, and
reject an unknown mode; the three known modes construct a client. -/
def NewRedisRepository (config : ConfigV) : Except GoErr RepoDesc :=
  match config with
  | .RedisConfig cs keyPre keySep =>
    let keyPre := if keyPre == "" then "app" else keyPre
    let keySep := if keySep == "" then ":" else keySep
    match parseRedisServerInfoFromConfigString cs with
    | .error e => .error e
    | .ok info =>
      if info.mode == "single" || info.mode == "sentinel" || info.mode == "cluster" then
        .ok (.redisRepo keyPre keySep info)
      else
        .error (.wrapped .errInvalidInput "unsupported Redis mode")
  | _ => .error (.wrapped .errInvalidInput "invalid config type for Redis repository")

/-- Models NewMemoryRepository (datarepository.memory.go lines 40 to
58): a non-MemoryConfig value is rejected with a plain, unwrapped
error. -/
def NewMemoryRepository (config : ConfigV) : Except GoErr RepoDesc :=
  match config with
  | .MemoryConfig => .ok .memRepo
  | _ => .error (.plain "invalid config type for Memory repository")

/-- The process-wide factory registry after the init function of
datarepository.go has run: redis and memory. -/
def repositoryFactories : List (String × (ConfigV → Except GoErr RepoDesc)) :=
  [("redis", NewRedisRepository), ("memory", NewMemoryRepository)]

/-- Models CreateDataRepository (datarepository.factory.go lines 23 to
43): an unregistered name yields a plain error built with fmt.Errorf
and no error wrapping; a registered name invokes its constructor. -/
def CreateDataRepository (name : String) (config : ConfigV) : Except GoErr RepoDesc :=
  match lookupKV repositoryFactories name with
  | none => .error (.plain ("unknown repository type: " ++ name))
  | some factory => factory config

/-! Specification-side definitions, written from the words of the
claims so that the source-side definitions above can be compared
against them. -/

/-- The five distinct failure classes of key validation named by the
claims (the character-class failure splits by mode). -/
inductive KeyErrKind where
  | lengthErr
  | patternCharsErr
  | charsErr
  | preErr
  | suffixErr
  | emptyPartErr
deriving DecidableEq, Repr

/-- The failure class of a validateKey result: the sentinel deciding
the class of the error, whether wrapped or bare. -/
def keyErrKind : Except GoErr Unit → Option KeyErrKind
  | .ok _ => none
  | .error e =>
    match e with
    | .wrapped cause _ => baseKind cause
    | cause => baseKind cause
where
  /-- Class of a bare sentinel. -/
  baseKind : GoErr → Option KeyErrKind
    | .errInvalidKeyLength => some .lengthErr
    | .errInvalidKeyPatternChars => some .patternCharsErr
    | .errInvalidKeyChars => some .charsErr
    | .errInvalidKeyPre => some .preErr
    | .errInvalidKeySuffix => some .suffixErr
    | .errEmptyKeyPart => some .emptyPartErr
    | _ => none

/-- The validation order exactly as claim C2 words it: length bounds,
then character set, then the prefix test, then -- at least one
non-empty segment after the prefix -- then no empty segment anywhere,
each failure short-circuiting into its own class. -/
def claimValidate (pre : String) (sep : Char) (key : String) (allowPattern : Bool) :
    Option KeyErrKind :=
  if ¬(MinKeyLength ≤ key.length ∧ key.length ≤ MaxKeyLength) then
    some .lengthErr
  else if allowPattern = true ∧ ¬(key.data ≠ [] ∧ ∀ c ∈ key.data, isValidKeyPatternChar c) then
    some .patternCharsErr
  else if allowPattern = false ∧ ¬(key.data ≠ [] ∧ ∀ c ∈ key.data, isValidKeyChar c) then
    some .charsErr
  else if ¬((pre.push sep).data <+: key.data) then
    some .preErr
  else if ¬(∃ seg ∈ (goSplit key sep).drop 1, seg ≠ "") then
    some .suffixErr
  else if ¬(∀ seg ∈ goSplit key sep, seg ≠ "") then
    some .emptyPartErr
  else none

/-- The amended validation order: identical to `claimValidate` except
in the fourth check, which requires the split to have at least two
parts with the part at index one -- the first segment after the
namespace -- non-empty, rather than some non-empty later segment. -/
def amendedValidate (pre : String) (sep : Char) (key : String) (allowPattern : Bool) :
    Option KeyErrKind :=
  if ¬(MinKeyLength ≤ key.length ∧ key.length ≤ MaxKeyLength) then
    some .lengthErr
  else if allowPattern = true ∧ ¬(key.data ≠ [] ∧ ∀ c ∈ key.data, isValidKeyPatternChar c) then
    some .patternCharsErr
  else if allowPattern = false ∧ ¬(key.data ≠ [] ∧ ∀ c ∈ key.data, isValidKeyChar c) then
    some .charsErr
  else if ¬((pre.push sep).data <+: key.data) then
    some .preErr
  else if ¬(2 ≤ (goSplit key sep).length ∧ (goSplit key sep).getD 1 "" ≠ "") then
    some .suffixErr
  else if ¬(∀ seg ∈ goSplit key sep, seg ≠ "") then
    some .emptyPartErr
  else none

/-- Ascending-or-descending key order as claim C8 words it: ascending
by the string order, descending exactly when sortDir is the string
DESC. -/
def specSortLe (sortDir : String) (a b : String) : Bool :=
  if sortDir == "DESC" then goStrLt b a || b == a else goStrLt a b || a == b

/-- The memory Search behavior as claim C8 words it: the keys of
entries whose formatted value contains the query, sorted by canonical
key (descending when DESC), then the page of at most `limit` entries
starting at `offset`. -/
def searchSpec (data : List (String × GoValue)) (query : String)
    (offset limit : Int) (sortDir : String) : Except GoErr (List String) :=
  if offset < 0 ∨ limit < 0 then
    .error (.wrapped .errInvalidInput "invalid offset or limit")
  else
    let keys := (data.filter (fun kv => goContains (goFormat kv.2) query)).map (fun kv => kv.1)
    .ok (((sortLe (specSortLe sortDir) keys).drop offset.toNat).take limit.toNat)

/-! Helper lemmas about the association-list maps. -/

theorem lookupKV_insert_self {α : Type} (l : List (String × α)) (k : String) (v : α) :
    lookupKV (insertKV l k v) k = some v := by
  simp [insertKV, lookupKV]

theorem lookupKV_erase_self {α : Type} (l : List (String × α)) (k : String) :
    lookupKV (eraseKV l k) k = none := by
  induction l with
  | nil => simp [eraseKV, lookupKV]
  | cons kv rest ih =>
    by_cases h : kv.1 = k
    · simpa [eraseKV, h] using ih
    · simpa [eraseKV, lookupKV, h] using ih

/-- Claim C9: on the memory backend SetExpiration of an identifier with
no stored entity fails with a NotFound-kind error and leaves the state
-- in particular the expiry table -- unchanged. -/
theorem c9_setExpiration_absent_notFound (s : MemState) (now : Nat) (key : String)
    (d : Nat) (habs : lookupKV s.data key = none) :
    memSetExpiration s now key d = (.error .errNotFound, s) ∧
      IsNotFoundError .errNotFound = true := by
  refine ⟨?_, by decide⟩
  simp [memSetExpiration, habs]

/-- Witness for C9 at a concrete empty repository. -/
theorem c9_setExpiration_absent_notFound_witness :
    memSetExpiration MemState.empty 0 "user:1" 10 = (.error .errNotFound, MemState.empty) ∧
      IsNotFoundError .errNotFound = true :=
  c9_setExpiration_absent_notFound MemState.empty 0 "user:1" 10 (by decide)

/-- Claim C4, actual behavior at the failing input: after Create and
SetExpiration with duration ten taken at instant zero, at instant
eleven the expiry has elapsed; Read does fail NotFound as the claim
says, but GetExpiration returns the negative remaining duration minus
one with no error instead of failing NotFound. -/
theorem c4_expired_getExpiration_no_notFound :
    (memRead (memSetExpiration (memCreate MemState.empty "user:1" (.raw "Ada")).2
        0 "user:1" 10).2 11 "user:1").1 = .error .errNotFound ∧
    IsNotFoundError .errNotFound = true ∧
    memGetExpiration (memSetExpiration (memCreate MemState.empty "user:1" (.raw "Ada")).2
        0 "user:1" 10).2 11 "user:1" = .ok (-1) := by
  decide

/-- Claim C3, actual behavior at the failing input: the memory backend
does reject a negative offset locally with a wrapped ErrInvalidInput,
but the Redis backend Search consults the backend reply even when the
offset is negative -- an erroring backend surfaces as a wrapped
ErrOperationFailed, a zero-total reply succeeds -- so the FT.SEARCH
command is dispatched and no InvalidInput-kind error is produced. -/
theorem c3_negative_offset_redis_dispatches :
    memSearch ⟨[("app:user:1", .raw "v")], [], []⟩ "v" (-1) 10 "f" "ASC"
      = some (.error (.wrapped .errInvalidInput "invalid offset or limit")) ∧
    IsInvalidInputError (.wrapped .errInvalidInput "invalid offset or limit") = true ∧
    redisSearch "app" ':' "v" (-1) 10 "f" "ASC" (.error (.plain "server refused"))
      = .error (.wrapped .errOperationFailed "FT.SEARCH failed") ∧
    IsInvalidInputError (.wrapped .errOperationFailed "FT.SEARCH failed") = false ∧
    redisSearch "app" ':' "v" (-1) 10 "f" "ASC" (.ok [.int 0]) = .ok [] := by
  decide

/-! Helper lemmas for the lock protocol. -/

theorem memAcquireLock_true_locks (s : MemState) (t0 : Nat) (k : String) (ttl : Nat)
    (s1 : MemState) (h : memAcquireLock s t0 k ttl = (true, s1)) :
    s1.locks = insertKV s.locks k (t0 + ttl) := by
  unfold memAcquireLock at h
  split at h
  · split at h
    · simp at h
    · simpa using congrArg (fun p => Prod.snd p |>.locks) h.symm
  · simpa using congrArg (fun p => Prod.snd p |>.locks) h.symm

theorem redisSetNX_true_store (store : List (String × Nat)) (t0 : Nat) (k : String)
    (ttl : Nat) (store1 : List (String × Nat))
    (h : redisSetNX store t0 k ttl = (true, store1)) :
    store1 = insertKV store k (t0 + ttl) := by
  unfold redisSetNX at h
  split at h
  · split at h
    · simp at h
    · simpa using congrArg Prod.snd h.symm
  · simpa using congrArg Prod.snd h.symm

theorem redisAcquireLock_eval (store : List (String × Nat)) (now ttl : Nat)
    (ident : EntityIdentifier) (key : String)
    (henc : identifierToKey "app" ':' ident false = .ok key) :
    redisAcquireLock "app" ':' store now ident ttl =
      (.ok (redisSetNX store now (lockKeyOf ':' key) ttl).1,
        (redisSetNX store now (lockKeyOf ':' key) ttl).2) := by
  simp [redisAcquireLock, henc]

/-- Claim C5: the lock protocol, on the memory backend from the source
and on the Redis backend over the spec-modelled server SetNX/DEL
keyspace.  Acquisition with no unexpired record succeeds; a second
acquisition strictly before the expiry instant fails; acquisition at or
after the expiry instant succeeds; after a successful release
acquisition succeeds (on the memory backend release after acquisition
always succeeds).  Every operation is a total function of the state, so
no call blocks. -/
theorem c5_acquireLock_protocol :
    (∀ (s : MemState) (now k0 ttl : Nat) (k : String),
      0 < ttl →
      (lookupKV s.locks k = none ∨ ∃ e, lookupKV s.locks k = some e ∧ e ≤ now) →
      (memAcquireLock s now k ttl).1 = true ∧ k0 = k0) ∧
    (∀ (s s1 : MemState) (t0 t1 ttl ttl2 : Nat) (k : String),
      memAcquireLock s t0 k ttl = (true, s1) → t1 < t0 + ttl →
      (memAcquireLock s1 t1 k ttl2).1 = false) ∧
    (∀ (s s1 : MemState) (t0 t2 ttl ttl2 : Nat) (k : String),
      memAcquireLock s t0 k ttl = (true, s1) → t0 + ttl ≤ t2 →
      (memAcquireLock s1 t2 k ttl2).1 = true) ∧
    (∀ (s s1 : MemState) (t0 t3 ttl ttl2 : Nat) (k : String),
      memAcquireLock s t0 k ttl = (true, s1) →
      (memReleaseLock s1 k).1 = .ok () ∧
      (memAcquireLock (memReleaseLock s1 k).2 t3 k ttl2).1 = true) ∧
    (∀ (store : List (String × Nat)) (now ttl : Nat) (ident : EntityIdentifier)
        (key : String),
      0 < ttl →
      identifierToKey "app" ':' ident false = .ok key →
      (lookupKV store (lockKeyOf ':' key) = none ∨
        ∃ e, lookupKV store (lockKeyOf ':' key) = some e ∧ e ≤ now) →
      (redisAcquireLock "app" ':' store now ident ttl).1 = .ok true) ∧
    (∀ (store store1 : List (String × Nat)) (t0 t1 ttl ttl2 : Nat)
        (ident : EntityIdentifier) (key : String),
      identifierToKey "app" ':' ident false = .ok key →
      redisAcquireLock "app" ':' store t0 ident ttl = (.ok true, store1) →
      t1 < t0 + ttl →
      (redisAcquireLock "app" ':' store1 t1 ident ttl2).1 = .ok false) ∧
    (∀ (store store1 : List (String × Nat)) (t0 t2 ttl ttl2 : Nat)
        (ident : EntityIdentifier) (key : String),
      identifierToKey "app" ':' ident false = .ok key →
      redisAcquireLock "app" ':' store t0 ident ttl = (.ok true, store1) →
      t0 + ttl ≤ t2 →
      (redisAcquireLock "app" ':' store t2 ident ttl2).1 = .ok true ∧
      (redisAcquireLock "app" ':' store1 t2 ident ttl2).1 = .ok true) ∧
    (∀ (store store2 : List (String × Nat)) (t3 t4 ttl2 : Nat)
        (ident : EntityIdentifier) (key : String),
      identifierToKey "app" ':' ident false = .ok key →
      redisReleaseLock "app" ':' store t3 ident = (.ok (), store2) →
      (redisAcquireLock "app" ':' store2 t4 ident ttl2).1 = .ok true) := by
  refine ⟨?_, ?_, ?_, ?_, ?_, ?_, ?_, ?_⟩
  · intro s now k0 ttl k _ hfree
    refine ⟨?_, rfl⟩
    rcases hfree with hnone | ⟨e, he, hle⟩
    · simp [memAcquireLock, hnone]
    · simp [memAcquireLock, he, Nat.not_lt.mpr hle]
  · intro s s1 t0 t1 ttl ttl2 k hacq hlt
    have hlocks := memAcquireLock_true_locks s t0 k ttl s1 hacq
    simp [memAcquireLock, hlocks, lookupKV_insert_self, hlt]
  · intro s s1 t0 t2 ttl ttl2 k hacq hle
    have hlocks := memAcquireLock_true_locks s t0 k ttl s1 hacq
    simp [memAcquireLock, hlocks, lookupKV_insert_self, Nat.not_lt.mpr hle]
  · intro s s1 t0 t3 ttl ttl2 k hacq
    have hlocks := memAcquireLock_true_locks s t0 k ttl s1 hacq
    constructor
    · simp [memReleaseLock, hlocks, lookupKV_insert_self]
    · simp [memReleaseLock, memAcquireLock, hlocks, lookupKV_insert_self,
        lookupKV_erase_self]
  · intro store now ttl ident key _ henc hfree
    rcases hfree with hnone | ⟨e, he, hle⟩
    · simp [redisAcquireLock, henc, redisSetNX, hnone]
    · simp [redisAcquireLock, henc, redisSetNX, he, Nat.not_lt.mpr hle]
  · intro store store1 t0 t1 ttl ttl2 ident key henc hacq hlt
    rw [redisAcquireLock_eval store t0 ttl ident key henc] at hacq
    have hfst := congrArg Prod.fst hacq
    have hsnd := congrArg Prod.snd hacq
    simp at hfst hsnd
    have hsetnx : redisSetNX store t0 (lockKeyOf ':' key) ttl = (true, store1) :=
      Prod.ext hfst hsnd
    have hst := redisSetNX_true_store store t0 (lockKeyOf ':' key) ttl store1 hsetnx
    rw [redisAcquireLock_eval store1 t1 ttl2 ident key henc]
    simp [redisSetNX, hst, lookupKV_insert_self, hlt]
  · intro store store1 t0 t2 ttl ttl2 ident key henc hacq hle
    rw [redisAcquireLock_eval store t0 ttl ident key henc] at hacq
    have hfst := congrArg Prod.fst hacq
    have hsnd := congrArg Prod.snd hacq
    simp at hfst hsnd
    have hsetnx : redisSetNX store t0 (lockKeyOf ':' key) ttl = (true, store1) :=
      Prod.ext hfst hsnd
    have hst := redisSetNX_true_store store t0 (lockKeyOf ':' key) ttl store1 hsetnx
    constructor
    · rw [redisAcquireLock_eval store t2 ttl2 ident key henc]
      cases hl : lookupKV store (lockKeyOf ':' key) with
      | none => simp [redisSetNX, hl]
      | some e =>
        have hne : ¬ t0 < e := by
          intro hcon
          rw [redisSetNX] at hsetnx
          simp [hl, hcon] at hsetnx
        have he2 : ¬ t2 < e := by omega
        simp [redisSetNX, hl, he2]
    · rw [redisAcquireLock_eval store1 t2 ttl2 ident key henc]
      simp [redisSetNX, hst, lookupKV_insert_self, Nat.not_lt.mpr hle]
  · intro store store2 t3 t4 ttl2 ident key henc hrel
    have hdel : store2 = eraseKV store (lockKeyOf ':' key) := by
      simp only [redisReleaseLock, henc] at hrel
      by_cases hz : ((redisDel store t3 (lockKeyOf ':' key)).1 == 0) = true
      · rw [if_pos hz] at hrel
        simp at hrel
      · rw [if_neg hz] at hrel
        have h2 := congrArg Prod.snd hrel
        simp at h2
        rw [← h2]
        cases hl : lookupKV store (lockKeyOf ':' key) with
        | none => exfalso; exact hz (by simp [redisDel, hl])
        | some e =>
          by_cases ht : t3 < e
          · simp [redisDel, hl, ht]
          · exfalso; exact hz (by simp [redisDel, hl, ht])
    rw [redisAcquireLock_eval store2 t4 ttl2 ident key henc]
    simp [redisSetNX, hdel, lookupKV_erase_self]

/-- Witness for C5 at concrete inputs: a fresh lock table, the key k,
acquisition at instant zero with ttl ten, a refused second acquisition
at five, a successful one at ten, release-then-reacquire, and the same
on the modelled Redis store for identifier user:1. -/
theorem c5_acquireLock_protocol_witness :
    (memAcquireLock ⟨[], [], []⟩ 0 "k" 10).1 = true ∧
    (memAcquireLock ⟨[], [("k", 10)], []⟩ 5 "k" 10).1 = false ∧
    (memAcquireLock ⟨[], [("k", 10)], []⟩ 10 "k" 10).1 = true ∧
    ((memReleaseLock ⟨[], [("k", 10)], []⟩ "k").1 = .ok () ∧
      (memAcquireLock (memReleaseLock ⟨[], [("k", 10)], []⟩ "k").2 3 "k" 7).1 = true) ∧
    (redisAcquireLock "app" ':' [] 0 (.RedisIdentifier "user" "1") 10).1 = .ok true ∧
    (redisAcquireLock "app" ':' [("app:user:1:lock", 10)] 5
      (.RedisIdentifier "user" "1") 10).1 = .ok false ∧
    (redisAcquireLock "app" ':' [("app:user:1:lock", 10)] 10
      (.RedisIdentifier "user" "1") 10).1 = .ok true ∧
    (redisAcquireLock "app" ':' [] 4 (.RedisIdentifier "user" "1") 10).1 = .ok true := by
  have h := c5_acquireLock_protocol
  refine ⟨(h.1 ⟨[], [], []⟩ 0 0 10 "k" (by decide) (Or.inl (by decide))).1,
    h.2.1 ⟨[], [], []⟩ ⟨[], [("k", 10)], []⟩ 0 5 10 3 "k" (by decide) (by decide),
    h.2.2.1 ⟨[], [], []⟩ ⟨[], [("k", 10)], []⟩ 0 10 10 4 "k" (by decide) (by decide),
    h.2.2.2.1 ⟨[], [], []⟩ ⟨[], [("k", 10)], []⟩ 0 3 10 7 "k" (by decide),
    h.2.2.2.2.1 [] 0 10 (.RedisIdentifier "user" "1") "app:user:1" (by decide)
      (by decide) (Or.inl (by decide)),
    h.2.2.2.2.2.1 [] [("app:user:1:lock", 10)] 0 5 10 10 (.RedisIdentifier "user" "1")
      "app:user:1" (by decide) (by decide) (by decide),
    (h.2.2.2.2.2.2.1 [] [("app:user:1:lock", 10)] 0 10 10 10
      (.RedisIdentifier "user" "1") "app:user:1" (by decide) (by decide) (by decide)).2,
    h.2.2.2.2.2.2.2 [("app:user:1:lock", 10)] [] 4 4 10 (.RedisIdentifier "user" "1")
      "app:user:1" (by decide) (by decide)⟩

/-- Wrap-around is the identity on values inside the int64 range. -/
theorem wrapInt64_eq_self (n : Int) (h1 : -(2 ^ 63) ≤ n) (h2 : n < 2 ^ 63) :
    wrapInt64 n = n := by
  unfold wrapInt64
  omega

/-- Helper for C6: while the int64 counter stays below the int64
maximum, N further sequential AtomicIncrement calls return m+1 up to
m+N in order. -/
theorem memIncrN_intV (N : Nat) : ∀ (s : MemState) (k : String) (m : Int),
    lookupKV s.data k = some (.intV m) → 0 ≤ m → m + (N : Int) ≤ 2 ^ 63 - 1 →
    (memIncrN s k N).1 = (List.range N).map (fun i => .ok (m + 1 + (i : Int))) := by
  induction N with
  | zero => intro s k m _ _ _; simp [memIncrN]
  | succ n ih =>
    intro s k m h hm hrange
    push_cast at hrange
    have hwrap : wrapInt64 (m + 1) = m + 1 :=
      wrapInt64_eq_self (m + 1) (by omega) (by omega)
    have hstep : memAtomicIncrement s k
        = (.ok (m + 1), { s with data := insertKV s.data k (.intV (m + 1)) }) := by
      simp [memAtomicIncrement, h, hwrap]
    have hnext : lookupKV (insertKV s.data k (GoValue.intV (m + 1))) k
        = some (.intV (m + 1)) := lookupKV_insert_self _ _ _
    have ihs := ih { s with data := insertKV s.data k (.intV (m + 1)) } k (m + 1) hnext
      (by omega) (by push_cast; omega)
    simp only [memIncrN, hstep, ihs, List.range_succ_eq_map, List.map_cons,
      List.map_map]
    refine List.cons_eq_cons.mpr ⟨by simp, ?_⟩
    refine List.map_congr_left ?_
    intro i _
    simp only [Function.comp]
    congr 1
    push_cast
    ring

/-- Counterexample to claim C6 as stated: on the Redis backend, with
the stored value under app:user:ctr not an integer counter, the INCR
reply is the plain server error, and AtomicIncrement returns it
unchanged -- an error that is not of InvalidInput kind. -/
theorem c6_redis_not_invalidInput_counterexample :
    redisAtomicIncrement "app" ':' (.RedisIdentifier "user" "ctr")
        (.error (.plain "ERR value is not an integer or out of range"))
      = .error (.plain "ERR value is not an integer or out of range") ∧
    IsInvalidInputError (.plain "ERR value is not an integer or out of range") = false := by
  decide

/-- Claim C6 as amended: on the memory backend AtomicIncrement creates
the counter at one when absent, applies the Go v++ to an int64 counter
-- the successor with int64 wrap-around, so it is n+1 whenever n+1 is
still representable and minInt64 at a stored maxInt64 -- and fails with
ErrInvalidInput leaving the state unchanged on any other stored value;
N sequential calls on a fresh identifier return 1..N for every N up to
the int64 maximum; the Redis backend forwards INCR and returns the
client reply unchanged, never classifying it. -/
theorem c6_atomicIncrement_amended :
    (∀ (s : MemState) (k : String), lookupKV s.data k = none →
      memAtomicIncrement s k = (.ok 1, { s with data := insertKV s.data k (.intV 1) })) ∧
    (∀ (s : MemState) (k : String) (n : Int), lookupKV s.data k = some (.intV n) →
      memAtomicIncrement s k
        = (.ok (wrapInt64 (n + 1)),
            { s with data := insertKV s.data k (.intV (wrapInt64 (n + 1))) })) ∧
    (∀ n : Int, -(2 ^ 63) ≤ n → n + 1 < 2 ^ 63 → wrapInt64 (n + 1) = n + 1) ∧
    memAtomicIncrement ⟨[("c", .intV (2 ^ 63 - 1))], [], []⟩ "c"
      = (.ok (-(2 ^ 63)), ⟨[("c", .intV (-(2 ^ 63)))], [], []⟩) ∧
    (∀ (s : MemState) (k : String) (v : GoValue), lookupKV s.data k = some v →
      (∀ n : Int, v ≠ .intV n) →
      memAtomicIncrement s k = (.error .errInvalidInput, s) ∧
        IsInvalidInputError .errInvalidInput = true) ∧
    (∀ (s : MemState) (k : String) (N : Nat), lookupKV s.data k = none →
      (N : Int) ≤ 2 ^ 63 - 1 →
      (memIncrN s k N).1 = (List.range N).map (fun i => .ok ((i : Int) + 1))) ∧
    (∀ (ident : EntityIdentifier) (key : String) (reply : Except GoErr Int),
      identifierToKey "app" ':' ident false = .ok key →
      redisAtomicIncrement "app" ':' ident reply = reply) := by
  refine ⟨?_, ?_, ?_, ?_, ?_, ?_, ?_⟩
  · intro s k h
    simp [memAtomicIncrement, h]
  · intro s k n h
    simp [memAtomicIncrement, h]
  · intro n h1 h2
    exact wrapInt64_eq_self (n + 1) (by omega) h2
  · decide
  · intro s k v h hnot
    refine ⟨?_, by decide⟩
    cases v with
    | intV n => exact absurd rfl (hnot n)
    | strV t => simp [memAtomicIncrement, h]
    | raw t => simp [memAtomicIncrement, h]
  · intro s k N h hN
    cases N with
    | zero => simp [memIncrN]
    | succ n =>
      push_cast at hN
      have hstep : memAtomicIncrement s k
          = (.ok 1, { s with data := insertKV s.data k (.intV 1) }) := by
        simp [memAtomicIncrement, h]
      have hnext : lookupKV (insertKV s.data k (GoValue.intV 1)) k
          = some (.intV 1) := lookupKV_insert_self _ _ _
      have ihs := memIncrN_intV n { s with data := insertKV s.data k (.intV 1) } k 1
        hnext (by omega) (by push_cast; omega)
      simp only [memIncrN, hstep, ihs, List.range_succ_eq_map, List.map_cons,
        List.map_map]
      refine List.cons_eq_cons.mpr ⟨by simp, ?_⟩
      refine List.map_congr_left ?_
      intro i _
      simp only [Function.comp]
      congr 1
      push_cast
      ring
  · intro ident key reply henc
    simp [redisAtomicIncrement, henc]

/-- Witness for C6 as amended, at concrete inputs: a fresh counter, a
counter at five (with the wrap identity at six), the maxInt64 boundary,
a string value, three sequential calls, and a forwarded Redis reply. -/
theorem c6_atomicIncrement_amended_witness :
    memAtomicIncrement ⟨[], [], []⟩ "c"
      = (.ok 1, ⟨[("c", .intV 1)], [], []⟩) ∧
    memAtomicIncrement ⟨[("c", .intV 5)], [], []⟩ "c"
      = (.ok (wrapInt64 (5 + 1)), ⟨[("c", .intV (wrapInt64 (5 + 1)))], [], []⟩) ∧
    wrapInt64 (5 + 1) = 5 + 1 ∧
    (memAtomicIncrement ⟨[("c", .strV "abc")], [], []⟩ "c"
      = (.error .errInvalidInput, ⟨[("c", .strV "abc")], [], []⟩) ∧
      IsInvalidInputError .errInvalidInput = true) ∧
    (memIncrN ⟨[], [], []⟩ "c" 3).1 = (List.range 3).map (fun i => .ok ((i : Int) + 1)) ∧
    redisAtomicIncrement "app" ':' (.RedisIdentifier "user" "ctr") (.ok 7) = .ok 7 := by
  have h := c6_atomicIncrement_amended
  refine ⟨?_, ?_, h.2.2.1 5 (by decide) (by decide), ?_,
    h.2.2.2.2.2.1 ⟨[], [], []⟩ "c" 3 (by decide) (by decide),
    h.2.2.2.2.2.2 (.RedisIdentifier "user" "ctr") "app:user:ctr" (.ok 7) (by decide)⟩
  · have := h.1 ⟨[], [], []⟩ "c" (by decide)
    simpa [insertKV, eraseKV] using this
  · have := h.2.1 ⟨[("c", .intV 5)], [], []⟩ "c" 5 (by decide)
    simpa [insertKV, eraseKV] using this
  · have := h.2.2.2.2.1 ⟨[("c", .strV "abc")], [], []⟩ "c" (.strV "abc") (by decide)
      (fun n h => GoValue.noConfusion h)
    simpa [insertKV, eraseKV] using this

/-- Counterexample to claim C7 as stated: an unregistered backend name
produces the distinct unknown-repository-type error, but that error is
a bare fmt.Errorf with no error wrapping, so IsOperationFailedError
does not recognise it; and the memory backend rejects a wrong
configuration type with a bare error that is likewise not discriminable
as InvalidInput. -/
theorem c7_factory_errors_counterexample :
    CreateDataRepository "postgres" .MemoryConfig
      = .error (.plain "unknown repository type: postgres") ∧
    IsOperationFailedError (.plain "unknown repository type: postgres") = false ∧
    CreateDataRepository "memory" (.RedisConfig "x" "" "")
      = .error (.plain "invalid config type for Memory repository") ∧
    IsInvalidInputError (.plain "invalid config type for Memory repository") = false := by
  decide

/-- Claim C7 as amended: an unregistered name fails with the distinct
plain unknown-repository-type error, which is not discriminable as
OperationFailed; a registered name with a configuration value of the
wrong concrete type fails with a wrapped InvalidInput-kind error for
the Redis backend, but with a plain unclassified error for the memory
backend. -/
theorem c7_factory_errors_amended :
    (∀ (name : String) (config : ConfigV), name ≠ "redis" → name ≠ "memory" →
      CreateDataRepository name config
        = .error (.plain ("unknown repository type: " ++ name)) ∧
      IsOperationFailedError (.plain ("unknown repository type: " ++ name)) = false) ∧
    (∀ config : ConfigV, (∀ cs kp ks, config ≠ .RedisConfig cs kp ks) →
      CreateDataRepository "redis" config
        = .error (.wrapped .errInvalidInput "invalid config type for Redis repository") ∧
      IsInvalidInputError
        (.wrapped .errInvalidInput "invalid config type for Redis repository") = true) ∧
    (∀ config : ConfigV, config ≠ .MemoryConfig →
      CreateDataRepository "memory" config
        = .error (.plain "invalid config type for Memory repository") ∧
      IsInvalidInputError (.plain "invalid config type for Memory repository") = false) := by
  refine ⟨?_, ?_, ?_⟩
  · intro name config h1 h2
    refine ⟨?_, by simp [IsOperationFailedError, goErrorIs]⟩
    have b1 : ("redis" == name) = false := by
      simp [Ne.symm h1]
    have b2 : ("memory" == name) = false := by
      simp [Ne.symm h2]
    simp [CreateDataRepository, repositoryFactories, lookupKV, b1, b2]
  · intro config hne
    refine ⟨?_, by decide⟩
    cases config with
    | RedisConfig cs kp ks => exact absurd rfl (hne cs kp ks)
    | MemoryConfig =>
      simp [CreateDataRepository, repositoryFactories, lookupKV, NewRedisRepository]
    | OtherConfig =>
      simp [CreateDataRepository, repositoryFactories, lookupKV, NewRedisRepository]
  · intro config hne
    refine ⟨?_, by simp [IsInvalidInputError, goErrorIs]⟩
    cases config with
    | MemoryConfig => exact absurd rfl hne
    | RedisConfig cs kp ks =>
      simp [CreateDataRepository, repositoryFactories, lookupKV, NewMemoryRepository]
    | OtherConfig =>
      simp [CreateDataRepository, repositoryFactories, lookupKV, NewMemoryRepository]

/-- Witness for C7 as amended, at the concrete name postgres and
concrete wrong-typed configurations. -/
theorem c7_factory_errors_amended_witness :
    (CreateDataRepository "postgres" .MemoryConfig
        = .error (.plain ("unknown repository type: " ++ "postgres")) ∧
      IsOperationFailedError (.plain ("unknown repository type: " ++ "postgres")) = false) ∧
    (CreateDataRepository "redis" .MemoryConfig
        = .error (.wrapped .errInvalidInput "invalid config type for Redis repository") ∧
      IsInvalidInputError
        (.wrapped .errInvalidInput "invalid config type for Redis repository") = true) ∧
    (CreateDataRepository "memory" (.RedisConfig "x" "" "")
        = .error (.plain "invalid config type for Memory repository") ∧
      IsInvalidInputError (.plain "invalid config type for Memory repository") = false) := by
  have h := c7_factory_errors_amended
  exact ⟨h.1 "postgres" .MemoryConfig (by decide) (by decide),
    h.2.1 .MemoryConfig (fun cs kp ks => by intro hc; cases hc),
    h.2.2 (.RedisConfig "x" "" "") (by intro hc; cases hc)⟩

/-! Helper lemmas about splitting on the separator, for the codec
roundtrip. -/

theorem string_mk_data (s : String) : String.mk s.data = s := rfl

theorem data_mk (l : List Char) : (String.mk l).data = l := rfl

theorem splitChars_of_not_mem (sep : Char) (l : List Char) (h : sep ∉ l) :
    splitChars sep l = [l] := by
  induction l with
  | nil => rfl
  | cons c cs ih =>
    have hc : (c == sep) = false := by
      simp only [beq_eq_false_iff_ne]
      exact fun e => h (e ▸ List.mem_cons_self c cs)
    have hcs : sep ∉ cs := fun hin => h (List.mem_cons_of_mem c hin)
    simp [splitChars, hc, ih hcs]

theorem splitChars_append_sep (sep : Char) (a b : List Char) (ha : sep ∉ a) :
    splitChars sep (a ++ sep :: b) = a :: splitChars sep b := by
  induction a with
  | nil => simp [splitChars]
  | cons c cs ih =>
    have hc : (c == sep) = false := by
      simp only [beq_eq_false_iff_ne]
      exact fun e => ha (e ▸ List.mem_cons_self c cs)
    have hcs : sep ∉ cs := fun hin => ha (List.mem_cons_of_mem c hin)
    simp [splitChars, hc, ih hcs]

theorem entityPreMatch_not_colon (entityPre : String)
    (h : entityPreMatch entityPre = true) : ':' ∉ entityPre.data := by
  unfold entityPreMatch at h
  cases hd : entityPre.data with
  | nil => rw [hd] at h; simp at h
  | cons c cs =>
    rw [hd] at h
    simp only [Bool.and_eq_true, List.all_eq_true] at h
    intro hmem
    rcases List.mem_cons.mp hmem with hhead | htail
    · rw [← hhead] at h
      exact absurd h.1 (by decide)
    · have := h.2 ':' htail
      exact absurd this (by decide)

/-- Claim C1: for a RedisIdentifier whose EntityPrefix matches the
entity-prefix rule and whose ID is non-empty and free of the separator,
whenever identifierToKey in exact mode (which enforces the key length
bounds) produces a physical key, keyToIdentifier maps that key back to
the original identifier. -/
theorem c1_identifier_key_roundtrip (entityPre id key : String)
    (hep : entityPreMatch entityPre = true)
    (hid : id ≠ "")
    (hsep : ':' ∉ id.data)
    (henc : identifierToKey "app" ':' (.RedisIdentifier entityPre id) false = .ok key) :
    keyToIdentifier "app" ':' key = .ok (.RedisIdentifier entityPre id) := by
  have henc2 : createKey "app" ':' [entityPre, id] = .ok key := by
    simpa [identifierToKey, validateEntityPre, hep] using henc
  simp only [createKey] at henc2
  cases hval : validateKey "app" ':' (goJoin ["app", entityPre, id] ':') false with
  | error e => rw [hval] at henc2; simp at henc2
  | ok u =>
    rw [hval] at henc2
    simp only [Except.ok.injEq] at henc2
    have hsplit : goSplit (goJoin ["app", entityPre, id] ':') ':'
        = ["app", entityPre, id] := by
      have hepc := entityPreMatch_not_colon entityPre hep
      have hdata : (goJoin ["app", entityPre, id] ':').data
          = "app".data ++ ':' :: (entityPre.data ++ ':' :: id.data) := by
        simp [goJoin, String.data_append, data_mk]
      unfold goSplit
      rw [hdata, splitChars_append_sep ':' _ _ (by decide),
        splitChars_append_sep ':' _ _ hepc,
        splitChars_of_not_mem ':' _ hsep]
      simp [string_mk_data]
    rw [← henc2]
    simp [keyToIdentifier, parseKey, hval, hsplit]

/-- Witness for C1 at the identifier with EntityPrefix user and ID 123:
encoding yields app:user:123, decoding returns the identifier. -/
theorem c1_identifier_key_roundtrip_witness :
    keyToIdentifier "app" ':' "app:user:123"
      = .ok (.RedisIdentifier "user" "123") :=
  c1_identifier_key_roundtrip "user" "123" "app:user:123" (by decide) (by decide)
    (by decide) (by decide)

/-! Bridging lemmas between the boolean checks of validateKey and their
propositional formulations. -/

theorem validKeyPatternMatch_iff (key : String) :
    validKeyPatternMatch key = true
      ↔ (key.data ≠ [] ∧ ∀ c ∈ key.data, isValidKeyPatternChar c) := by
  simp [validKeyPatternMatch, List.all_eq_true, List.isEmpty_iff]

theorem validKeyMatch_iff (key : String) :
    validKeyMatch key = true
      ↔ (key.data ≠ [] ∧ ∀ c ∈ key.data, isValidKeyChar c) := by
  simp [validKeyMatch, List.all_eq_true, List.isEmpty_iff]

theorem goHasPre_iff (s p : String) : goHasPre s p = true ↔ p.data <+: s.data := by
  unfold goHasPre
  exact List.isPrefixOf_iff_prefix

/-- Counterexample to claim C2 as stated, at the key app::xx in exact
mode: the claimed order -- with its fourth check asking only for some
non-empty segment after the namespace -- would pass that check (xx is
non-empty) and fail the fifth, reporting the empty-part error; the code
instead fails its fourth check, which looks at the first segment after
the namespace, and reports the suffix error. -/
theorem c2_validateKey_order_counterexample :
    claimValidate "app" ':' "app::xx" false = some .emptyPartErr ∧
    keyErrKind (validateKey "app" ':' "app::xx" false) = some .suffixErr ∧
    (KeyErrKind.emptyPartErr = KeyErrKind.suffixErr → False) := by
  decide

/-- Claim C2 as amended: validateKey performs, in order and
short-circuiting, the length check, the character-set check of the
selected mode, the namespace check, then the check that the separator
split has at least two parts whose part at index one (the first segment
after the namespace) is non-empty, then the no-empty-segment check; and
the five failure classes are pairwise distinct. -/
theorem c2_validateKey_order_amended :
    (∀ (pre : String) (sep : Char) (key : String) (allowPattern : Bool),
      keyErrKind (validateKey pre sep key allowPattern)
        = amendedValidate pre sep key allowPattern) ∧
    [KeyErrKind.lengthErr, KeyErrKind.patternCharsErr, KeyErrKind.charsErr,
      KeyErrKind.preErr, KeyErrKind.suffixErr, KeyErrKind.emptyPartErr].Nodup := by
  refine ⟨?_, by decide⟩
  intro pre sep key ap
  by_cases h1 : MinKeyLength ≤ key.length ∧ key.length ≤ MaxKeyLength
  case neg =>
    have hb1 : (decide (key.length < MinKeyLength)
        || decide (key.length > MaxKeyLength)) = true := by
      simp only [Bool.or_eq_true, decide_eq_true_eq]
      simp only [MinKeyLength, MaxKeyLength] at h1 ⊢
      omega
    have hL : keyErrKind (validateKey pre sep key ap) = some .lengthErr := by
      simp [validateKey, keyErrKind, keyErrKind.baseKind, hb1]
    rw [hL, amendedValidate, if_pos h1]
  case pos =>
    have hb1 : (decide (key.length < MinKeyLength)
        || decide (key.length > MaxKeyLength)) = false := by
      simp only [Bool.or_eq_false_iff, decide_eq_false_iff_not]
      simp only [MinKeyLength, MaxKeyLength] at h1 ⊢
      omega
    rcases ap with _ | _
    case false =>
      have hc2 : ¬(false = true
          ∧ ¬(key.data ≠ [] ∧ ∀ c ∈ key.data, isValidKeyPatternChar c)) :=
        fun hc => absurd hc.1 (by decide)
      cases hb2 : validKeyMatch key with
      | false =>
        have h2 : ¬(key.data ≠ [] ∧ ∀ c ∈ key.data, isValidKeyChar c) := fun hp => by
          rw [(validKeyMatch_iff key).mpr hp] at hb2
          exact Bool.noConfusion hb2
        have hL : keyErrKind (validateKey pre sep key false) = some .charsErr := by
          simp [validateKey, keyErrKind, keyErrKind.baseKind, hb1, hb2]
        rw [hL, amendedValidate, if_neg (not_not_intro h1), if_neg hc2,
          if_pos ⟨rfl, h2⟩]
      | true =>
        have h2 := (validKeyMatch_iff key).mp hb2
        have hc3 : ¬(false = false
            ∧ ¬(key.data ≠ [] ∧ ∀ c ∈ key.data, isValidKeyChar c)) :=
          fun hc => hc.2 h2
        cases hb4 : goHasPre key (pre.push sep) with
        | false =>
          have h4 : ¬((pre.push sep).data <+: key.data) := fun hp => by
            rw [(goHasPre_iff key _).mpr hp] at hb4
            exact Bool.noConfusion hb4
          have hL : keyErrKind (validateKey pre sep key false) = some .preErr := by
            simp [validateKey, keyErrKind, keyErrKind.baseKind, hb1, hb2, hb4]
          rw [hL, amendedValidate, if_neg (not_not_intro h1), if_neg hc2,
            if_neg hc3, if_pos h4]
        | true =>
          have h4 : (pre.push sep).data <+: key.data := (goHasPre_iff key _).mp hb4
          by_cases h5 : (goSplit key sep).length < 2 ∨ (goSplit key sep)[1]?.getD "" = ""
          · have hc5 : ¬(2 ≤ (goSplit key sep).length
                ∧ (goSplit key sep).getD 1 "" ≠ "") := by
              rcases h5 with hl | hg
              · exact fun hc => absurd hc.1 (by omega)
              · exact fun hc => hc.2 (by rw [List.getD_eq_getElem?_getD]; exact hg)
            have hL : keyErrKind (validateKey pre sep key false) = some .suffixErr := by
              simp [validateKey, keyErrKind, keyErrKind.baseKind, hb1, hb2, hb4, h5]
            rw [hL, amendedValidate, if_neg (not_not_intro h1), if_neg hc2,
              if_neg hc3, if_neg (not_not_intro h4), if_pos hc5]
          · have h5n := h5
            push_neg at h5n
            have hc5 : ¬¬(2 ≤ (goSplit key sep).length
                ∧ (goSplit key sep).getD 1 "" ≠ "") :=
              not_not_intro ⟨by omega, by rw [List.getD_eq_getElem?_getD]; exact h5n.2⟩
            by_cases h6 : "" ∈ goSplit key sep
            · have hb6 : ((goSplit key sep).any fun part => part == "") = true := by
                simp only [List.any_eq_true, beq_iff_eq]
                exact ⟨"", h6, rfl⟩
              have hc6 : ¬(∀ seg ∈ goSplit key sep, seg ≠ "") :=
                fun hall => (hall "" h6) rfl
              have hL : keyErrKind (validateKey pre sep key false)
                  = some .emptyPartErr := by
                simp [validateKey, keyErrKind, keyErrKind.baseKind, hb1, hb2, hb4,
                  h5, hb6]
              rw [hL, amendedValidate, if_neg (not_not_intro h1), if_neg hc2,
                if_neg hc3, if_neg (not_not_intro h4), if_neg hc5, if_pos hc6]
            · have hb6 : ((goSplit key sep).any fun part => part == "") = false := by
                simp only [List.any_eq_false]
                intro x hx
                simp only [beq_iff_eq, Bool.not_eq_true]
                exact fun hxe => h6 (hxe ▸ hx)
              have hc6 : ¬¬(∀ seg ∈ goSplit key sep, seg ≠ "") :=
                not_not_intro (fun seg hseg he => h6 (he ▸ hseg))
              have hL : keyErrKind (validateKey pre sep key false) = none := by
                simp [validateKey, keyErrKind, hb1, hb2, hb4, h5, hb6]
              rw [hL, amendedValidate, if_neg (not_not_intro h1), if_neg hc2,
                if_neg hc3, if_neg (not_not_intro h4), if_neg hc5, if_neg hc6]
    case true =>
      have hc3 : ¬(true = false
          ∧ ¬(key.data ≠ [] ∧ ∀ c ∈ key.data, isValidKeyChar c)) :=
        fun hc => absurd hc.1 (by decide)
      cases hb2 : validKeyPatternMatch key with
      | false =>
        have h2 : ¬(key.data ≠ [] ∧ ∀ c ∈ key.data, isValidKeyPatternChar c) :=
          fun hp => by
            rw [(validKeyPatternMatch_iff key).mpr hp] at hb2
            exact Bool.noConfusion hb2
        have hL : keyErrKind (validateKey pre sep key true)
            = some .patternCharsErr := by
          simp [validateKey, keyErrKind, keyErrKind.baseKind, hb1, hb2]
        rw [hL, amendedValidate, if_neg (not_not_intro h1), if_pos ⟨rfl, h2⟩]
      | true =>
        have h2 := (validKeyPatternMatch_iff key).mp hb2
        have hc2 : ¬(true = true
            ∧ ¬(key.data ≠ [] ∧ ∀ c ∈ key.data, isValidKeyPatternChar c)) :=
          fun hc => hc.2 h2
        cases hb4 : goHasPre key (pre.push sep) with
        | false =>
          have h4 : ¬((pre.push sep).data <+: key.data) := fun hp => by
            rw [(goHasPre_iff key _).mpr hp] at hb4
            exact Bool.noConfusion hb4
          have hL : keyErrKind (validateKey pre sep key true) = some .preErr := by
            simp [validateKey, keyErrKind, keyErrKind.baseKind, hb1, hb2, hb4]
          rw [hL, amendedValidate, if_neg (not_not_intro h1), if_neg hc2,
            if_neg hc3, if_pos h4]
        | true =>
          have h4 : (pre.push sep).data <+: key.data := (goHasPre_iff key _).mp hb4
          by_cases h5 : (goSplit key sep).length < 2 ∨ (goSplit key sep)[1]?.getD "" = ""
          · have hc5 : ¬(2 ≤ (goSplit key sep).length
                ∧ (goSplit key sep).getD 1 "" ≠ "") := by
              rcases h5 with hl | hg
              · exact fun hc => absurd hc.1 (by omega)
              · exact fun hc => hc.2 (by rw [List.getD_eq_getElem?_getD]; exact hg)
            have hL : keyErrKind (validateKey pre sep key true) = some .suffixErr := by
              simp [validateKey, keyErrKind, keyErrKind.baseKind, hb1, hb2, hb4, h5]
            rw [hL, amendedValidate, if_neg (not_not_intro h1), if_neg hc2,
              if_neg hc3, if_neg (not_not_intro h4), if_pos hc5]
          · have h5n := h5
            push_neg at h5n
            have hc5 : ¬¬(2 ≤ (goSplit key sep).length
                ∧ (goSplit key sep).getD 1 "" ≠ "") :=
              not_not_intro ⟨by omega, by rw [List.getD_eq_getElem?_getD]; exact h5n.2⟩
            by_cases h6 : "" ∈ goSplit key sep
            · have hb6 : ((goSplit key sep).any fun part => part == "") = true := by
                simp only [List.any_eq_true, beq_iff_eq]
                exact ⟨"", h6, rfl⟩
              have hc6 : ¬(∀ seg ∈ goSplit key sep, seg ≠ "") :=
                fun hall => (hall "" h6) rfl
              have hL : keyErrKind (validateKey pre sep key true)
                  = some .emptyPartErr := by
                simp [validateKey, keyErrKind, keyErrKind.baseKind, hb1, hb2, hb4,
                  h5, hb6]
              rw [hL, amendedValidate, if_neg (not_not_intro h1), if_neg hc2,
                if_neg hc3, if_neg (not_not_intro h4), if_neg hc5, if_pos hc6]
            · have hb6 : ((goSplit key sep).any fun part => part == "") = false := by
                simp only [List.any_eq_false]
                intro x hx
                simp only [beq_iff_eq, Bool.not_eq_true]
                exact fun hxe => h6 (hxe ▸ hx)
              have hc6 : ¬¬(∀ seg ∈ goSplit key sep, seg ≠ "") :=
                not_not_intro (fun seg hseg he => h6 (he ▸ hseg))
              have hL : keyErrKind (validateKey pre sep key true) = none := by
                simp [validateKey, keyErrKind, hb1, hb2, hb4, h5, hb6]
              rw [hL, amendedValidate, if_neg (not_not_intro h1), if_neg hc2,
                if_neg hc3, if_neg (not_not_intro h4), if_neg hc5, if_neg hc6]

/-! The character-list string order is a strict linear order; these
lemmas justify that the source comparator and the specification
comparator agree and that insertion sort orders the keys. -/

theorem char_toNat_inj (a b : Char) (h : a.toNat = b.toNat) : a = b := by
  apply Char.ext
  apply UInt32.ext
  exact h

theorem strLtChars_irrefl : ∀ l : List Char, strLtChars l l = false := by
  intro l
  induction l with
  | nil => rfl
  | cons c cs ih => simp [strLtChars, ih]

theorem strLtChars_asymm : ∀ a b : List Char,
    strLtChars a b = true → strLtChars b a = false := by
  intro a
  induction a with
  | nil =>
    intro b h
    cases b with
    | nil => simp [strLtChars] at h
    | cons d ds => simp [strLtChars]
  | cons c cs ih =>
    intro b h
    cases b with
    | nil => simp [strLtChars] at h
    | cons d ds =>
      simp only [strLtChars, Bool.or_eq_true, decide_eq_true_eq, Bool.and_eq_true,
        beq_iff_eq] at h
      rcases h with hlt | ⟨heq, hrest⟩
      · have hnlt : ¬ d.toNat < c.toNat := by omega
        have hne : d ≠ c := fun e => absurd (e ▸ hlt) (by omega)
        simp [strLtChars, hnlt, hne]
      · subst heq
        have hr := ih ds hrest
        simp [strLtChars, hr]

theorem strLtChars_conn : ∀ a b : List Char,
    strLtChars a b = false → strLtChars b a = false → a = b := by
  intro a
  induction a with
  | nil =>
    intro b h1 _
    cases b with
    | nil => rfl
    | cons d ds => simp [strLtChars] at h1
  | cons c cs ih =>
    intro b h1 h2
    cases b with
    | nil => simp [strLtChars] at h2
    | cons d ds =>
      simp only [strLtChars, Bool.or_eq_false_iff, decide_eq_false_iff_not,
        Bool.and_eq_false_iff, beq_eq_false_iff_ne] at h1 h2
      have heq : c = d := char_toNat_inj c d (by omega)
      subst heq
      have hcs : strLtChars cs ds = false := by
        rcases h1.2 with hcc | hr
        · exact absurd rfl hcc
        · exact hr
      have hds : strLtChars ds cs = false := by
        rcases h2.2 with hcc | hr
        · exact absurd rfl hcc
        · exact hr
      rw [ih ds hcs hds]

theorem strLtChars_trans : ∀ a b c : List Char,
    strLtChars a b = true → strLtChars b c = true → strLtChars a c = true := by
  intro a
  induction a with
  | nil =>
    intro b c h1 h2
    cases c with
    | nil =>
      cases b with
      | nil => simp [strLtChars] at h1
      | cons y ys => simp [strLtChars] at h2
    | cons z zs => simp [strLtChars]
  | cons x xs ih =>
    intro b c h1 h2
    cases b with
    | nil => simp [strLtChars] at h1
    | cons y ys =>
      cases c with
      | nil => simp [strLtChars] at h2
      | cons z zs =>
        simp only [strLtChars, Bool.or_eq_true, decide_eq_true_eq, Bool.and_eq_true,
          beq_iff_eq] at h1 h2 ⊢
        rcases h1 with h1 | ⟨e1, r1⟩
        · rcases h2 with h2 | ⟨e2, r2⟩
          · left; omega
          · subst e2; left; exact h1
        · subst e1
          rcases h2 with h2 | ⟨e2, r2⟩
          · left; exact h2
          · subst e2; right; exact ⟨rfl, ih ys zs r1 r2⟩

theorem string_eq_of_data_eq (a b : String) (h : a.data = b.data) : a = b := by
  calc a = String.mk a.data := rfl
  _ = String.mk b.data := by rw [h]
  _ = b := rfl

theorem goStrLt_not (a b : String) : (!goStrLt a b) = (goStrLt b a || a == b) := by
  cases hab : goStrLt a b with
  | true =>
    have h1 : goStrLt b a = false := strLtChars_asymm a.data b.data hab
    have h2 : (a == b) = false := by
      simp only [beq_eq_false_iff_ne]
      intro e
      rw [e] at hab
      rw [show goStrLt b b = strLtChars b.data b.data from rfl,
        strLtChars_irrefl] at hab
      exact Bool.noConfusion hab
    simp [h1, h2]
  | false =>
    cases hba : goStrLt b a with
    | true => simp
    | false =>
      have heq : a = b :=
        string_eq_of_data_eq a b (strLtChars_conn a.data b.data hab hba)
      simp [heq]

theorem beq_str_comm (a b : String) : (b == a) = (a == b) := by
  by_cases e : a = b
  · rw [e]
  · simp [e, Ne.symm e]

theorem goSortLe_eq_specSortLe (dir : String) : goSortLe dir = specSortLe dir := by
  funext a b
  unfold goSortLe specSortLe
  by_cases hd : (dir == "DESC") = true
  · rw [if_pos hd, if_pos hd, goStrLt_not a b, beq_str_comm]
  · rw [if_neg hd, if_neg hd, goStrLt_not b a, beq_str_comm]

/-- The string le comparator is transitive. -/
theorem strLeB_trans (a b c : String) (h1 : (goStrLt a b || a == b) = true)
    (h2 : (goStrLt b c || b == c) = true) : (goStrLt a c || a == c) = true := by
  simp only [Bool.or_eq_true, beq_iff_eq] at h1 h2 ⊢
  rcases h1 with h1 | e1
  · rcases h2 with h2 | e2
    · left; exact strLtChars_trans a.data b.data c.data h1 h2
    · subst e2; left; exact h1
  · subst e1
    rcases h2 with h2 | e2
    · left; exact h2
    · subst e2; right; rfl

/-- The string le comparator is total. -/
theorem strLeB_total (a b : String) :
    (goStrLt a b || a == b) = true ∨ (goStrLt b a || b == a) = true := by
  cases hab : goStrLt a b with
  | true => left; simp [hab]
  | false =>
    cases hba : goStrLt b a with
    | true => right; simp [hba]
    | false =>
      have heq : a = b :=
        string_eq_of_data_eq a b (strLtChars_conn a.data b.data hab hba)
      left
      simp [heq]

theorem specSortLe_trans (dir : String) (a b c : String)
    (h1 : specSortLe dir a b = true) (h2 : specSortLe dir b c = true) :
    specSortLe dir a c = true := by
  unfold specSortLe at h1 h2 ⊢
  by_cases hd : (dir == "DESC") = true
  · rw [if_pos hd] at h1 h2 ⊢
    exact strLeB_trans c b a h2 h1
  · rw [if_neg hd] at h1 h2 ⊢
    exact strLeB_trans a b c h1 h2

theorem specSortLe_total (dir : String) (a b : String) :
    specSortLe dir a b = true ∨ specSortLe dir b a = true := by
  unfold specSortLe
  by_cases hd : (dir == "DESC") = true
  · rw [if_pos hd, if_pos hd]
    exact (strLeB_total b a).symm.imp id id |>.symm
  · rw [if_neg hd, if_neg hd]
    exact strLeB_total a b

/-! Insertion sort orders by any transitive, total boolean comparator
and permutes its input. -/

theorem insertLe_perm {α : Type} (le : α → α → Bool) (a : α) (l : List α) :
    (insertLe le a l).Perm (a :: l) := by
  induction l with
  | nil => exact List.Perm.refl _
  | cons b t ih =>
    unfold insertLe
    by_cases h : le a b = true
    · rw [if_pos h]
    · rw [if_neg h]
      exact (List.Perm.cons b ih).trans (List.Perm.swap a b t)

theorem sortLe_perm {α : Type} (le : α → α → Bool) (l : List α) :
    (sortLe le l).Perm l := by
  induction l with
  | nil => exact List.Perm.refl _
  | cons a t ih =>
    exact (insertLe_perm le a (sortLe le t)).trans (List.Perm.cons a ih)

theorem insertLe_pairwise {α : Type} (le : α → α → Bool)
    (htrans : ∀ a b c, le a b = true → le b c = true → le a c = true)
    (htot : ∀ a b, le a b = true ∨ le b a = true) (a : α) (l : List α)
    (h : l.Pairwise (fun x y => le x y = true)) :
    (insertLe le a l).Pairwise (fun x y => le x y = true) := by
  induction l with
  | nil => simp [insertLe]
  | cons b t ih =>
    rcases List.pairwise_cons.mp h with ⟨hb, ht⟩
    unfold insertLe
    by_cases hab : le a b = true
    · rw [if_pos hab]
      refine List.pairwise_cons.mpr ⟨?_, h⟩
      intro x hx
      rcases List.mem_cons.mp hx with rfl | hxt
      · exact hab
      · exact htrans a b x hab (hb x hxt)
    · rw [if_neg hab]
      have hba : le b a = true := (htot a b).resolve_left hab
      refine List.pairwise_cons.mpr ⟨?_, ih ht⟩
      intro x hx
      have hmem : x ∈ a :: t := (insertLe_perm le a t).mem_iff.mp hx
      rcases List.mem_cons.mp hmem with rfl | hxt
      · exact hba
      · exact hb x hxt

theorem sortLe_pairwise {α : Type} (le : α → α → Bool)
    (htrans : ∀ a b c, le a b = true → le b c = true → le a c = true)
    (htot : ∀ a b, le a b = true ∨ le b a = true) (l : List α) :
    (sortLe le l).Pairwise (fun x y => le x y = true) := by
  induction l with
  | nil => simp [sortLe]
  | cons a t ih =>
    exact insertLe_pairwise le htrans htot a (sortLe le t) ih

/-- The pagination of the source -- guard on offset at or beyond the
count, then slice up to min(offset+limit, count) -- equals the
specification drop-then-take page. -/
theorem paginate_eq (l : List String) (offset limit : Int)
    (ho : ¬ offset < 0) (hl : ¬ limit < 0) :
    (if offset ≥ (l.length : Int) then ([] : List String)
      else (l.take (min (offset + limit) (l.length : Int)).toNat).drop offset.toNat)
      = (l.drop offset.toNat).take limit.toNat := by
  by_cases hge : offset ≥ (l.length : Int)
  · rw [if_pos hge]
    have hdrop : l.drop offset.toNat = [] :=
      List.drop_eq_nil_of_le (by omega)
    rw [hdrop, List.take_nil]
  · rw [if_neg hge]
    rw [List.drop_take]
    by_cases hcase : offset + limit ≤ (l.length : Int)
    · rw [min_eq_left hcase]
      congr 1
      omega
    · rw [min_eq_right (by omega)]
      have hlhs : ((l.length : Int)).toNat - offset.toNat
          = (l.drop offset.toNat).length := by
        rw [List.length_drop]
        omega
      rw [hlhs, List.take_length,
        List.take_of_length_le (by rw [List.length_drop]; omega)]

/-- The memory Search equals its specification-side description for
every offset and limit whose sum does not overflow int64. -/
theorem memSearch_eq_searchSpec (s : MemState) (query : String)
    (offset limit : Int) (sortBy sortDir : String)
    (ho : 0 ≤ offset) (hl : 0 ≤ limit) (hno : offset + limit < 2 ^ 63) :
    memSearch s query offset limit sortBy sortDir
      = some (searchSpec s.data query offset limit sortDir) := by
  unfold memSearch searchSpec
  have hb : (decide (offset < 0) || decide (limit < 0)) = false := by
    simp only [Bool.or_eq_false_iff, decide_eq_false_iff_not]
    exact ⟨by omega, by omega⟩
  have hneg : ¬(offset < 0 ∨ limit < 0) := by omega
  simp only [hb, Bool.false_eq_true, if_false, if_neg hneg]
  rw [goSortLe_eq_specSortLe]
  set L := sortLe (specSortLe sortDir)
    ((s.data.filter (fun kv => goContains (goFormat kv.2) query)).map (fun kv => kv.1))
    with hLdef
  have hwrap : wrapInt64 (offset + limit) = offset + limit :=
    wrapInt64_eq_self _ (by omega) hno
  by_cases hge : offset ≥ (L.length : Int)
  · rw [if_pos hge]
    have hdrop : L.drop offset.toNat = [] := List.drop_eq_nil_of_le (by omega)
    rw [hdrop, List.take_nil]
  · rw [if_neg hge]
    have hlast : (if wrapInt64 (offset + limit) > (L.length : Int)
        then (L.length : Int) else wrapInt64 (offset + limit))
        = min (offset + limit) (L.length : Int) := by
      rw [hwrap]
      by_cases hab : offset + limit > (L.length : Int)
      · rw [if_pos hab, min_eq_right (by omega)]
      · rw [if_neg hab, min_eq_left (by omega)]
    rw [hlast]
    have hguard : offset ≤ min (offset + limit) (L.length : Int) :=
      le_min (by omega) (by omega)
    rw [if_pos hguard]
    have hpag := paginate_eq L offset limit (by omega) (by omega)
    rw [if_neg hge] at hpag
    rw [hpag]

/-- Counterexample to claim C8 as stated: at offset one and limit
maxInt64 -- both non-negative -- with two matching entries, the Go end
index offset+limit wraps to minInt64, stays below the clamp, and the
slice expression result[offset:end] panics, so Search returns no value
at all; the claim instead promises the clamped page, which the
specification computes as the single key b. -/
theorem c8_overflow_page_counterexample :
    memSearch ⟨[("a", .raw "v"), ("b", .raw "v")], [], []⟩ "v" 1 (2 ^ 63 - 1) "f" "ASC"
      = none ∧
    searchSpec [("a", .raw "v"), ("b", .raw "v")] "v" 1 (2 ^ 63 - 1) "ASC"
      = .ok ["b"] := by
  constructor
  · decide
  · decide

/-- Claim C8 as amended: memory Search ignores sortBy; whenever
offset and limit are non-negative and their sum stays within int64, it
equals the specification -- the keys of entries whose formatted value
contains the query, sorted by the canonical key order of sortDir, then
the page result[offset : offset+limit] clamped, empty when offset is at
or past the match count; and that sort permutes the matches and orders
them by the sortDir comparator (ascending string order, descending when
sortDir is DESC).  When offset+limit overflows int64 the slice bound
wraps negative and the call panics instead of returning the page. -/
theorem c8_memSearch_sorted_paginated :
    (∀ (s : MemState) (query : String) (offset limit : Int)
        (sortByA sortByB sortDir : String),
      memSearch s query offset limit sortByA sortDir
        = memSearch s query offset limit sortByB sortDir) ∧
    (∀ (s : MemState) (query : String) (offset limit : Int)
        (sortBy sortDir : String),
      0 ≤ offset → 0 ≤ limit → offset + limit < 2 ^ 63 →
      memSearch s query offset limit sortBy sortDir
        = some (searchSpec s.data query offset limit sortDir)) ∧
    (∀ (dir : String) (l : List String), (sortLe (specSortLe dir) l).Perm l) ∧
    (∀ (dir : String) (l : List String),
      (sortLe (specSortLe dir) l).Pairwise (fun a b => specSortLe dir a b = true)) := by
  refine ⟨?_, ?_, ?_, ?_⟩
  · intro s query offset limit sortByA sortByB sortDir
    rfl
  · intro s query offset limit sortBy sortDir ho hl hno
    exact memSearch_eq_searchSpec s query offset limit sortBy sortDir ho hl hno
  · intro dir l
    exact sortLe_perm (specSortLe dir) l
  · intro dir l
    exact sortLe_pairwise (specSortLe dir) (specSortLe_trans dir) (specSortLe_total dir) l

/-- Witness for C8 as amended at a concrete three-entry repository,
offset one and limit five. -/
theorem c8_memSearch_sorted_paginated_witness :
    memSearch ⟨[("b", .raw "xay"), ("a", .raw "za"), ("c", .strV "bbb")], [], []⟩
        "a" 1 5 "f" "ASC"
      = some (searchSpec [("b", .raw "xay"), ("a", .raw "za"), ("c", .strV "bbb")]
          "a" 1 5 "ASC") :=
  c8_memSearch_sorted_paginated.2.1
    ⟨[("b", .raw "xay"), ("a", .raw "za"), ("c", .strV "bbb")], [], []⟩
    "a" 1 5 "f" "ASC" (by decide) (by decide) (by decide)

/-- Claim C10: within the modelled regexp fragment, memory List keeps
exactly the stored keys that the rewritten pattern -- star replaced by
dot-star -- matches as an unanchored regular expression, and a pattern
the compiler rejects (a leading repetition operator) surfaces as the
wrapped ErrInvalidInput of the source; concretely, a pattern matches
every key merely containing a match (Xuser:12Y for pattern user:1,
without any star), the dot matches any character, a question mark and a
plus act as regex quantifiers rather than literals, and a star matches
any run. -/
theorem c10_memList_unanchored_regex :
    (∀ (s : MemState) (pattern : String),
      regexCompileModel (goReplaceAll pattern "*" ".*").data = .ok →
      ∃ ids vals, memList s pattern = some (.ok (ids, vals)) ∧
      ∀ key, key ∈ ids ↔ ∃ v, (key, v) ∈ s.data ∧
        goRegexMatch (goReplaceAll pattern "*" ".*") key = true) ∧
    memList ⟨[("k", .raw "v")], [], []⟩ "+bad"
      = some (.error (.wrapped .errInvalidInput "invalid pattern")) ∧
    (memList ⟨[("Xuser:12Y", .raw "v")], [], []⟩ "user:1"
        = some (.ok (["Xuser:12Y"], [.raw "v"])) ∧ "Xuser:12Y" ≠ "user:1") ∧
    memList ⟨[("zabcz", .raw "v")], [], []⟩ "a.c"
      = some (.ok (["zabcz"], [.raw "v"])) ∧
    memList ⟨[("xacx", .raw "v")], [], []⟩ "ab?c"
      = some (.ok (["xacx"], [.raw "v"])) ∧
    (memList ⟨[("xacx", .raw "v")], [], []⟩ "ab+c" = some (.ok ([], [])) ∧
      memList ⟨[("xabbcx", .raw "v")], [], []⟩ "ab+c"
        = some (.ok (["xabbcx"], [.raw "v"]))) ∧
    memList ⟨[("Xuser:99Y", .raw "v")], [], []⟩ "user:*"
      = some (.ok (["Xuser:99Y"], [.raw "v"])) := by
  refine ⟨?_, by decide, by decide, by decide, by decide, by decide, by decide⟩
  intro s pattern hcompile
  simp only [memList, hcompile]
  refine ⟨_, _, rfl, ?_⟩
  intro key
  simp only [List.mem_map, List.mem_filter]
  constructor
  · rintro ⟨⟨k, v⟩, ⟨hmem, hmatch⟩, rfl⟩
    exact ⟨v, hmem, hmatch⟩
  · rintro ⟨v, hmem, hmatch⟩
    exact ⟨(key, v), ⟨hmem, hmatch⟩, rfl⟩

/-- Witness for C10 at the pattern user:* over a one-entry repository:
the rewritten regex user:.* is inside the modelled fragment. -/
theorem c10_memList_unanchored_regex_witness :
    ∃ ids vals,
      memList ⟨[("Xuser:99Y", .raw "v")], [], []⟩ "user:*" = some (.ok (ids, vals)) ∧
      ∀ key, key ∈ ids ↔ ∃ v,
        (key, v) ∈ ([("Xuser:99Y", GoValue.raw "v")] : List (String × GoValue)) ∧
        goRegexMatch (goReplaceAll "user:*" "*" ".*") key = true :=
  c10_memList_unanchored_regex.1 ⟨[("Xuser:99Y", .raw "v")], [], []⟩ "user:*" (by decide)

end DataRepo
